import Mathlib

/-!
Verification of the response-recovery pipeline of the audio-transcription
repository: timestamp codecs, response extractors, deduplicators, chunk
mergers, retry controller and chunk orchestrator.

Python strings are modelled as `List Char`, Python floats as exact
rationals `ℚ` (real-number arithmetic; all quantities in the claims are
millisecond-granular, where float and exact arithmetic agree), Python
dicts as insertion-ordered association lists, and fallible code as
`Option`/`Except`.
-/

/-- Model of a Python `str`: a sequence of characters. -/
abbrev Str := List Char

/-- Numeric value of a decimal digit character. -/
def digitVal (c : Char) : Nat := c.toNat - 48

/-- Decimal digit character for a value below ten. -/
def digitToChar : Nat → Char
  | 0 => '0' | 1 => '1' | 2 => '2' | 3 => '3' | 4 => '4'
  | 5 => '5' | 6 => '6' | 7 => '7' | 8 => '8' | _ => '9'

/-- Value of a string of decimal digit characters (most significant first). -/
def natVal (l : Str) : Nat := l.foldl (fun a c => 10 * a + digitVal c) 0

/-- Decimal digit characters of a natural number, as Python's `repr` prints it
(most significant first, `"0"` for zero). -/
def natToChars (n : Nat) : Str :=
  if _ : n < 10 then [digitToChar n]
  else natToChars (n / 10) ++ [digitToChar (n % 10)]
decreasing_by exact Nat.div_lt_self (by omega) (by omega)

/-- Python `f"{n:02d}"` for a nonnegative value: zero-pad to width two. -/
def pad2 (n : Nat) : Str := if n < 10 then '0' :: natToChars n else natToChars n

/-- Python `f"{n:03d}"` for a nonnegative value: zero-pad to width three. -/
def pad3 (n : Nat) : Str :=
  if n < 10 then '0' :: '0' :: natToChars n
  else if n < 100 then '0' :: natToChars n
  else natToChars n

/-- Python `f"{i:02d}"` on an `int` (negative values carry a sign). -/
def pad2Int (i : Int) : Str :=
  if i < 0 then '-' :: natToChars i.natAbs else pad2 i.toNat

/-- Python `f"{i:03d}"` on an `int` (negative values carry a sign). -/
def pad3Int (i : Int) : Str :=
  if i < 0 then '-' :: natToChars i.natAbs else pad3 i.toNat

/-- Python `s.split(sep)` for a single-character separator. -/
def splitOnChar (sep : Char) : Str → List Str
  | [] => [[]]
  | c :: cs =>
    match splitOnChar sep cs with
    | [] => [[c]]
    | h :: t => if c = sep then [] :: h :: t else (c :: h) :: t

/-- Python `int(s)` on a string of decimal digits (the only shape this
program feeds it; other accepted Python spellings such as signs or
surrounding whitespace do not occur here). -/
def parseNat? (l : Str) : Option Nat :=
  if !l.isEmpty && l.all Char.isDigit then some (natVal l) else none

/-- Python `float(s)` on a plain decimal literal `digits[.digits]` (the only
shape this program feeds it; exponents and specials do not occur here). -/
def parseDec? (l : Str) : Option ℚ :=
  match splitOnChar '.' l with
  | [a] => (parseNat? a).map (fun n => (n : ℚ))
  | [a, b] =>
    if !(a.isEmpty && b.isEmpty) && a.all Char.isDigit && b.all Char.isDigit then
      some ((natVal a : ℚ) + (natVal b : ℚ) / 10 ^ b.length)
    else none
  | _ => none

/-- Python `int(x)` on a float: truncation toward zero. -/
def pyInt (x : ℚ) : Int := x.num.tdiv x.den

/-- Python `x // y` on floats: floor division (junk value 0 where Python
raises `ZeroDivisionError`). -/
def pyFloorDiv (a b : ℚ) : ℚ := if b = 0 then 0 else (⌊a / b⌋ : ℚ)

/-- Python `x % y` on floats: `x - y * (x // y)` (junk value 0 where Python
raises `ZeroDivisionError`). -/
def pyMod (a b : ℚ) : ℚ := if b = 0 then 0 else a - b * (⌊a / b⌋ : ℚ)

/-- Round half to even, as Python's fixed-point float formatting rounds. -/
def rhe (x : ℚ) : Int :=
  let f := ⌊x⌋
  if x - f < 1 / 2 then f
  else if 1 / 2 < x - f then f + 1
  else if f % 2 = 0 then f else f + 1

/-- Left-pad a string with a character up to a given width. -/
def leftPad (c : Char) (w : Nat) (l : Str) : Str :=
  List.replicate (w - l.length) c ++ l

/-- Digits of a millisecond count rendered as `seconds.milliseconds`. -/
def fmt3body (m : Nat) : Str := natToChars (m / 1000) ++ '.' :: pad3 (m % 1000)

/-- Python `f"{x:06.3f}"`: round to three decimals, zero-pad to width six. -/
def pyFmt063 (x : ℚ) : Str :=
  if x < 0 then '-' :: leftPad '0' 5 (fmt3body (rhe (-x * 1000)).toNat)
  else leftPad '0' 6 (fmt3body (rhe (x * 1000)).toNat)

/-! ### Timestamp codecs

`ml_` functions embed `backend/multilingual_transcription.py` (the identical
definitions also appear in `backend/bengali_transcription.py`); `ad_`
functions embed `backend/audio_diarization.py`.

The definitions in this section idealize Python float arithmetic as exact
rational arithmetic. That idealization is adequate wherever only branch
structure, string structure or dict structure matters, but not for the
phrase-level codec's millisecond field: the binary64 development at the
end of this file embeds the same functions over IEEE-754 double-precision
rounding (`_fp` variants) and shows where the two disagree. -/

/-- `multilingual_transcription.timestamp_to_seconds`: branches on the number
of colon-separated fields; both three-field branches compute the same value
(the source distinguishes them only to name the variables). -/
def ml_timestamp_to_seconds (timestamp : Str) : Option ℚ :=
  match splitOnChar ':' timestamp with
  | [hours, minutes, seconds, milliseconds] => do
    let h ← parseNat? hours
    let m ← parseNat? minutes
    let s ← parseNat? seconds
    let ms ← parseNat? milliseconds
    pure ((h : ℚ) * 3600 + (m : ℚ) * 60 + (s : ℚ) + (ms : ℚ) / 1000)
  | [p0, p1, p2] =>
    if '.' ∈ p2 then do
      let h ← parseNat? p0
      let m ← parseNat? p1
      let s ← parseDec? p2
      pure ((h : ℚ) * 3600 + (m : ℚ) * 60 + s)
    else do
      let h ← parseNat? p0
      let m ← parseNat? p1
      let s ← parseDec? p2
      pure ((h : ℚ) * 3600 + (m : ℚ) * 60 + s)
  | [minutes, seconds] => do
    let m ← parseNat? minutes
    let s ← parseDec? seconds
    pure ((m : ℚ) * 60 + s)
  | _ => none

/-- `multilingual_transcription.seconds_to_timestamp`: `HH:MM:SS:mmm`
(exact-arithmetic idealization; `ml_seconds_to_timestamp_fp` below is the
binary64-faithful version, whose `int((seconds % 1) * 1000)` millisecond
field can truncate one lower). -/
def ml_seconds_to_timestamp (seconds : ℚ) : Str :=
  let hours := pyInt (pyFloorDiv seconds 3600)
  let minutes := pyInt (pyFloorDiv (pyMod seconds 3600) 60)
  let secs := pyInt (pyMod seconds 60)
  let milliseconds := pyInt (pyMod seconds 1 * 1000)
  pad2Int hours ++ ':' :: pad2Int minutes ++ ':' :: pad2Int secs ++
    ':' :: pad3Int milliseconds

/-- `audio_diarization.timestamp_to_seconds`: `MM:SS.mmm` (unpacking fails
for any field count other than two). -/
def ad_timestamp_to_seconds (timestamp : Str) : Option ℚ :=
  match splitOnChar ':' timestamp with
  | [minutes, rest] => do
    let m ← parseNat? minutes
    let s ← parseDec? rest
    pure ((m : ℚ) * 60 + s)
  | _ => none

/-- `audio_diarization.seconds_to_timestamp`: `MM:SS.mmm`. -/
def ad_seconds_to_timestamp (seconds : ℚ) : Str :=
  let minutes := pyInt (pyFloorDiv seconds 60)
  let secs := pyMod seconds 60
  pad2Int minutes ++ ':' :: pyFmt063 secs

/-! ### Digit-string lemmas -/

theorem digitToChar_isDigit {d : Nat} (h : d < 10) :
    (digitToChar d).isDigit = true := by
  interval_cases d <;> decide

theorem digitVal_digitToChar {d : Nat} (h : d < 10) :
    digitVal (digitToChar d) = d := by
  interval_cases d <;> decide

theorem natToChars_all_digit (n : Nat) : ∀ c ∈ natToChars n, c.isDigit = true := by
  induction n using Nat.strong_induction_on with
  | _ n ih =>
    rw [natToChars]
    split
    · next h =>
      intro c hc
      simp only [List.mem_singleton] at hc
      subst hc; exact digitToChar_isDigit h
    · next h =>
      intro c hc
      rw [List.mem_append] at hc
      rcases hc with hc | hc
      · exact ih (n / 10) (Nat.div_lt_self (by omega) (by omega)) c hc
      · simp only [List.mem_singleton] at hc
        subst hc; exact digitToChar_isDigit (Nat.mod_lt _ (by omega))

theorem natVal_append_digit (l : Str) (c : Char) :
    natVal (l ++ [c]) = 10 * natVal l + digitVal c := by
  simp [natVal, List.foldl_append]

theorem natVal_natToChars (n : Nat) : natVal (natToChars n) = n := by
  induction n using Nat.strong_induction_on with
  | _ n ih =>
    rw [natToChars]
    split
    · next h => simp [natVal, digitVal_digitToChar h]
    · next h =>
      rw [natVal_append_digit, ih (n / 10) (Nat.div_lt_self (by omega) (by omega)),
        digitVal_digitToChar (Nat.mod_lt _ (by omega))]
      omega

theorem natToChars_ne_nil (n : Nat) : natToChars n ≠ [] := by
  rw [natToChars]
  split <;> simp

theorem natVal_cons_zero (l : Str) : natVal ('0' :: l) = natVal l := by
  simp [natVal, digitVal]

theorem parseNat?_digits {l : Str} (hne : l ≠ [])
    (hd : ∀ c ∈ l, c.isDigit = true) : parseNat? l = some (natVal l) := by
  have h1 : l.isEmpty = false := by
    cases l with
    | nil => exact absurd rfl hne
    | cons a as => rfl
  have h2 : l.all Char.isDigit = true := by
    rw [List.all_eq_true]; exact hd
  simp [parseNat?, h1, h2]

theorem pad2_all_digit (n : Nat) : ∀ c ∈ pad2 n, c.isDigit = true := by
  unfold pad2
  split
  · intro c hc
    rcases List.mem_cons.1 hc with hc | hc
    · subst hc; decide
    · exact natToChars_all_digit n c hc
  · exact natToChars_all_digit n

theorem pad3_all_digit (n : Nat) : ∀ c ∈ pad3 n, c.isDigit = true := by
  unfold pad3
  split
  · intro c hc
    rcases List.mem_cons.1 hc with hc | hc
    · subst hc; decide
    rcases List.mem_cons.1 hc with hc | hc
    · subst hc; decide
    · exact natToChars_all_digit n c hc
  split
  · intro c hc
    rcases List.mem_cons.1 hc with hc | hc
    · subst hc; decide
    · exact natToChars_all_digit n c hc
  · exact natToChars_all_digit n

theorem pad2_ne_nil (n : Nat) : pad2 n ≠ [] := by
  unfold pad2; split
  · simp
  · exact natToChars_ne_nil n

theorem pad3_ne_nil (n : Nat) : pad3 n ≠ [] := by
  unfold pad3; split
  · simp
  split
  · simp
  · exact natToChars_ne_nil n

theorem natVal_pad2 (n : Nat) : natVal (pad2 n) = n := by
  unfold pad2; split
  · rw [natVal_cons_zero, natVal_natToChars]
  · exact natVal_natToChars n

theorem natVal_pad3 (n : Nat) : natVal (pad3 n) = n := by
  unfold pad3; split
  · rw [natVal_cons_zero, natVal_cons_zero, natVal_natToChars]
  split
  · rw [natVal_cons_zero, natVal_natToChars]
  · exact natVal_natToChars n

theorem parseNat?_pad2 (n : Nat) : parseNat? (pad2 n) = some n := by
  rw [parseNat?_digits (pad2_ne_nil n) (pad2_all_digit n), natVal_pad2]

theorem parseNat?_pad3 (n : Nat) : parseNat? (pad3 n) = some n := by
  rw [parseNat?_digits (pad3_ne_nil n) (pad3_all_digit n), natVal_pad3]

theorem isDigit_ne_of (c x : Char) (hx : x.isDigit = false)
    (h : c.isDigit = true) : c ≠ x := by
  intro he; subst he; rw [h] at hx; cases hx

theorem natToChars_length_lt10 {n : Nat} (h : n < 10) :
    (natToChars n).length = 1 := by
  rw [natToChars]; simp [h]

theorem natToChars_length_lt100 {n : Nat} (h1 : 10 ≤ n) (h2 : n < 100) :
    (natToChars n).length = 2 := by
  rw [natToChars]
  rw [dif_neg (by omega)]
  rw [List.length_append, natToChars_length_lt10 (by omega)]
  simp

theorem natToChars_length_lt1000 {n : Nat} (h1 : 100 ≤ n) (h2 : n < 1000) :
    (natToChars n).length = 3 := by
  rw [natToChars]
  rw [dif_neg (by omega)]
  rw [List.length_append, natToChars_length_lt100 (by omega) (by omega)]
  simp

theorem pad3_length {n : Nat} (h : n < 1000) : (pad3 n).length = 3 := by
  unfold pad3
  split
  · next h1 => simp [natToChars_length_lt10 h1]
  split
  · next h1 h2 => simp [natToChars_length_lt100 (by omega) h2]
  · next h1 h2 => exact natToChars_length_lt1000 (by omega) h

/-! ### Split lemmas -/

theorem splitOnChar_ne_nil (sep : Char) (l : Str) : splitOnChar sep l ≠ [] := by
  cases l with
  | nil => simp [splitOnChar]
  | cons c cs =>
    rw [splitOnChar]
    cases splitOnChar sep cs with
    | nil => simp
    | cons h t =>
      by_cases hc : c = sep <;> simp [hc]

theorem splitOnChar_cons_sep (sep : Char) (l : Str) :
    splitOnChar sep (sep :: l) = [] :: splitOnChar sep l := by
  rw [splitOnChar]
  cases hl : splitOnChar sep l with
  | nil => exact absurd hl (splitOnChar_ne_nil sep l)
  | cons h t => simp

theorem splitOnChar_cons_ne {sep c : Char} (hne : c ≠ sep) (l : Str) :
    splitOnChar sep (c :: l) =
      ((c :: (splitOnChar sep l).headI) :: (splitOnChar sep l).tail) := by
  rw [splitOnChar]
  cases hl : splitOnChar sep l with
  | nil => exact absurd hl (splitOnChar_ne_nil sep l)
  | cons h t => simp [hne]

theorem splitOnChar_no_sep {sep : Char} {l : Str}
    (h : ∀ c ∈ l, c ≠ sep) : splitOnChar sep l = [l] := by
  induction l with
  | nil => rfl
  | cons c cs ih =>
    have hc : c ≠ sep := h c (List.mem_cons_self c cs)
    rw [splitOnChar_cons_ne hc, ih (fun x hx => h x (List.mem_cons_of_mem c hx))]
    rfl

theorem splitOnChar_append_sep {sep : Char} {l₁ : Str}
    (h : ∀ c ∈ l₁, c ≠ sep) (l₂ : Str) :
    splitOnChar sep (l₁ ++ sep :: l₂) = l₁ :: splitOnChar sep l₂ := by
  induction l₁ with
  | nil => exact splitOnChar_cons_sep sep l₂
  | cons c cs ih =>
    have hc : c ≠ sep := h c (List.mem_cons_self c cs)
    rw [List.cons_append, splitOnChar_cons_ne hc,
      ih (fun x hx => h x (List.mem_cons_of_mem c hx))]
    rfl

/-! ### Floor / modulo arithmetic for millisecond-granular rationals -/

theorem floor_div_div (m a b : Nat) :
    ⌊((m : ℚ) / (a : ℚ)) / (b : ℚ)⌋ = ((m / (a * b) : Nat) : Int) := by
  rw [div_div]
  have h := Rat.floor_natCast_div_natCast m (a * b)
  push_cast at h ⊢
  exact h

theorem pyInt_natCast (n : Nat) : pyInt (n : ℚ) = (n : Int) := by
  simp [pyInt, Rat.num_natCast, Rat.den_natCast, Int.tdiv]

theorem pyInt_nonneg_floor {x : ℚ} (h : 0 ≤ x) : pyInt x = ⌊x⌋ := by
  rw [Rat.floor_def, pyInt]
  rw [Int.tdiv_eq_ediv (Rat.num_nonneg.2 h) (by positivity)]

theorem pyFloorDiv_ms (m k : Nat) (hk : k ≠ 0) :
    pyFloorDiv ((m : ℚ) / 1000) (k : ℚ) = (((m / (1000 * k) : Nat) : Int) : ℚ) := by
  rw [pyFloorDiv, if_neg (by exact_mod_cast hk)]
  rw [show ((1000 : ℚ)) = ((1000 : Nat) : ℚ) by norm_num]
  rw [floor_div_div]

theorem pyMod_ms (m k : Nat) (hk : k ≠ 0) :
    pyMod ((m : ℚ) / 1000) (k : ℚ) = ((m % (1000 * k) : Nat) : ℚ) / 1000 := by
  rw [pyMod, if_neg (by exact_mod_cast hk)]
  rw [show ((1000 : ℚ)) = ((1000 : Nat) : ℚ) by norm_num]
  rw [floor_div_div, Int.cast_natCast]
  have hdm := Nat.div_add_mod m (1000 * k)
  have hq : ((1000 * k : Nat) : ℚ) * ((m / (1000 * k) : Nat) : ℚ) +
      ((m % (1000 * k) : Nat) : ℚ) = (m : ℚ) := by
    exact_mod_cast hdm
  rw [Nat.cast_mul] at hq
  rw [show (((1000 : Nat) : ℚ)) = (1000 : ℚ) by norm_num] at hq ⊢
  field_simp
  nlinarith [hq]

theorem rhe_natCast (n : Nat) : rhe ((n : ℚ)) = (n : Int) := by
  unfold rhe
  rw [Int.floor_natCast]
  norm_num

/-! ### Formatting and parsing round trips -/

theorem pad2Int_natCast (n : Nat) : pad2Int ((n : Int)) = pad2 n := by
  rw [pad2Int, if_neg (by omega), Int.toNat_natCast]

theorem pad3Int_natCast (n : Nat) : pad3Int ((n : Int)) = pad3 n := by
  rw [pad3Int, if_neg (by omega), Int.toNat_natCast]

theorem floor_ms (k : Nat) : ⌊(k : ℚ) / 1000⌋ = ((k / 1000 : Nat) : Int) := by
  have h := Rat.floor_natCast_div_natCast k 1000
  push_cast at h ⊢
  exact h

theorem pad2_no_colon (n : Nat) : ∀ c ∈ pad2 n, c ≠ ':' :=
  fun c hc => isDigit_ne_of c ':' (by decide) (pad2_all_digit n c hc)

theorem pad3_no_colon (n : Nat) : ∀ c ∈ pad3 n, c ≠ ':' :=
  fun c hc => isDigit_ne_of c ':' (by decide) (pad3_all_digit n c hc)

theorem isEmpty_false_of_ne_nil {l : Str} (h : l ≠ []) : l.isEmpty = false := by
  cases l with
  | nil => exact absurd rfl h
  | cons a as => rfl

theorem all_digit_bool {l : Str} (h : ∀ c ∈ l, c.isDigit = true) :
    l.all Char.isDigit = true := by
  rw [List.all_eq_true]; exact h

theorem parseDec?_int_digits {l : Str} (hne : l ≠ [])
    (hd : ∀ c ∈ l, c.isDigit = true) : parseDec? l = some ((natVal l : ℚ)) := by
  have hnodot : ∀ c ∈ l, c ≠ '.' := fun c hc => isDigit_ne_of c '.' (by decide) (hd c hc)
  rw [parseDec?, splitOnChar_no_sep hnodot]
  simp [parseNat?_digits hne hd]

theorem parseDec?_dot {a b : Str} (hane : a ≠ []) (ha : ∀ c ∈ a, c.isDigit = true)
    (hbne : b ≠ []) (hb : ∀ c ∈ b, c.isDigit = true) :
    parseDec? (a ++ '.' :: b) = some ((natVal a : ℚ) + (natVal b : ℚ) / 10 ^ b.length) := by
  have hanodot : ∀ c ∈ a, c ≠ '.' := fun c hc => isDigit_ne_of c '.' (by decide) (ha c hc)
  have hbnodot : ∀ c ∈ b, c ≠ '.' := fun c hc => isDigit_ne_of c '.' (by decide) (hb c hc)
  rw [parseDec?, splitOnChar_append_sep hanodot, splitOnChar_no_sep hbnodot]
  simp [isEmpty_false_of_ne_nil hane, all_digit_bool ha, all_digit_bool hb]

theorem ml_parse_four (h m s ms : Nat) :
    ml_timestamp_to_seconds (pad2 h ++ ':' :: (pad2 m ++ ':' :: (pad2 s ++ ':' :: pad3 ms))) =
      some ((h : ℚ) * 3600 + (m : ℚ) * 60 + (s : ℚ) + (ms : ℚ) / 1000) := by
  have hsplit : splitOnChar ':' (pad2 h ++ ':' :: (pad2 m ++ ':' :: (pad2 s ++ ':' :: pad3 ms)))
      = [pad2 h, pad2 m, pad2 s, pad3 ms] := by
    rw [splitOnChar_append_sep (pad2_no_colon h), splitOnChar_append_sep (pad2_no_colon m),
      splitOnChar_append_sep (pad2_no_colon s), splitOnChar_no_sep (pad3_no_colon ms)]
  rw [ml_timestamp_to_seconds, hsplit]
  simp [parseNat?_pad2, parseNat?_pad3]

theorem ml_fmt_ms (m : Nat) :
    ml_seconds_to_timestamp ((m : ℚ) / 1000) =
      pad2 (m / 3600000) ++ ':' :: (pad2 (m % 3600000 / 60000) ++
        ':' :: (pad2 (m % 60000 / 1000) ++ ':' :: pad3 (m % 1000))) := by
  have hh : pyInt (pyFloorDiv ((m : ℚ) / 1000) 3600) = ((m / 3600000 : Nat) : Int) := by
    rw [show ((3600 : ℚ)) = ((3600 : Nat) : ℚ) by norm_num, pyFloorDiv_ms m 3600 (by norm_num),
      Int.cast_natCast, pyInt_natCast]
  have hmod3600 : pyMod ((m : ℚ) / 1000) 3600 = ((m % 3600000 : Nat) : ℚ) / 1000 := by
    rw [show ((3600 : ℚ)) = ((3600 : Nat) : ℚ) by norm_num, pyMod_ms m 3600 (by norm_num)]
  have hmin : pyInt (pyFloorDiv (pyMod ((m : ℚ) / 1000) 3600) 60) =
      ((m % 3600000 / 60000 : Nat) : Int) := by
    rw [hmod3600, show ((60 : ℚ)) = ((60 : Nat) : ℚ) by norm_num,
      pyFloorDiv_ms (m % 3600000) 60 (by norm_num), Int.cast_natCast, pyInt_natCast]
  have hmod60 : pyMod ((m : ℚ) / 1000) 60 = ((m % 60000 : Nat) : ℚ) / 1000 := by
    rw [show ((60 : ℚ)) = ((60 : Nat) : ℚ) by norm_num, pyMod_ms m 60 (by norm_num)]
  have hsec : pyInt (pyMod ((m : ℚ) / 1000) 60) = ((m % 60000 / 1000 : Nat) : Int) := by
    rw [hmod60, pyInt_nonneg_floor (by positivity), floor_ms]
  have hmod1 : pyMod ((m : ℚ) / 1000) 1 = ((m % 1000 : Nat) : ℚ) / 1000 := by
    rw [show ((1 : ℚ)) = ((1 : Nat) : ℚ) by norm_num, pyMod_ms m 1 (by norm_num)]
  have hms : pyInt (pyMod ((m : ℚ) / 1000) 1 * 1000) = ((m % 1000 : Nat) : Int) := by
    rw [hmod1, div_mul_cancel₀ _ (by norm_num : (1000 : ℚ) ≠ 0), pyInt_natCast]
  rw [ml_seconds_to_timestamp]
  rw [hh, hmin, hsec, hms, pad2Int_natCast, pad2Int_natCast, pad2Int_natCast, pad3Int_natCast]
  simp only [List.append_assoc, List.cons_append]

theorem ml_roundtrip_ms (m : Nat) :
    ml_timestamp_to_seconds (ml_seconds_to_timestamp ((m : ℚ) / 1000)) =
      some ((m : ℚ) / 1000) := by
  rw [ml_fmt_ms, ml_parse_four]
  congr 1
  have key : 3600000 * (m / 3600000) + 60000 * (m % 3600000 / 60000) +
      1000 * (m % 60000 / 1000) + m % 1000 = m := by omega
  have keyq : (3600000 : ℚ) * ((m / 3600000 : Nat) : ℚ) +
      60000 * ((m % 3600000 / 60000 : Nat) : ℚ) +
      1000 * ((m % 60000 / 1000 : Nat) : ℚ) + ((m % 1000 : Nat) : ℚ) = (m : ℚ) := by
    exact_mod_cast key
  field_simp
  linarith [keyq]

theorem fmt063_ms (k : Nat) (hk : k < 100000) :
    pyFmt063 ((k : ℚ) / 1000) = pad2 (k / 1000) ++ '.' :: pad3 (k % 1000) := by
  rw [pyFmt063, if_neg (not_lt.2 (by positivity : (0 : ℚ) ≤ (k : ℚ) / 1000))]
  rw [div_mul_cancel₀ _ (by norm_num : (1000 : ℚ) ≠ 0), rhe_natCast, Int.toNat_natCast]
  rw [fmt3body, leftPad]
  have hlen3 : (pad3 (k % 1000)).length = 3 := pad3_length (Nat.mod_lt _ (by norm_num))
  by_cases h10 : k / 1000 < 10
  · rw [List.length_append, natToChars_length_lt10 h10]
    simp only [List.length_cons, hlen3]
    rw [show (6 - (1 + (3 + 1))) = 1 by norm_num]
    rw [pad2, if_pos h10]
    rfl
  · rw [List.length_append, natToChars_length_lt100 (by omega) (by omega)]
    simp only [List.length_cons, hlen3]
    rw [show (6 - (2 + (3 + 1))) = 0 by norm_num]
    rw [pad2, if_neg h10]
    rfl

theorem ad_seconds_fields (m : Nat) :
    ad_seconds_to_timestamp ((m : ℚ) / 1000) =
      pad2 (m / 60000) ++ ':' :: (pad2 (m % 60000 / 1000) ++ '.' :: pad3 (m % 1000)) := by
  have hmin : pyInt (pyFloorDiv ((m : ℚ) / 1000) 60) = ((m / 60000 : Nat) : Int) := by
    rw [show ((60 : ℚ)) = ((60 : Nat) : ℚ) by norm_num, pyFloorDiv_ms m 60 (by norm_num),
      Int.cast_natCast, pyInt_natCast]
  have hmod60 : pyMod ((m : ℚ) / 1000) 60 = ((m % 60000 : Nat) : ℚ) / 1000 := by
    rw [show ((60 : ℚ)) = ((60 : Nat) : ℚ) by norm_num, pyMod_ms m 60 (by norm_num)]
  rw [ad_seconds_to_timestamp]
  rw [hmin, hmod60, pad2Int_natCast, fmt063_ms (m % 60000) (by omega)]
  rw [show m % 60000 % 1000 = m % 1000 by omega]

theorem ad_parse_fields (M S F : Nat) (hF : F < 1000) :
    ad_timestamp_to_seconds (pad2 M ++ ':' :: (pad2 S ++ '.' :: pad3 F)) =
      some ((M : ℚ) * 60 + ((S : ℚ) + (F : ℚ) / 1000)) := by
  have hnc2 : ∀ c ∈ pad2 S ++ '.' :: pad3 F, c ≠ ':' := by
    intro c hc
    rcases List.mem_append.1 hc with hc | hc
    · exact pad2_no_colon S c hc
    rcases List.mem_cons.1 hc with hc | hc
    · subst hc; decide
    · exact pad3_no_colon F c hc
  have hsplit : splitOnChar ':' (pad2 M ++ ':' :: (pad2 S ++ '.' :: pad3 F)) =
      [pad2 M, pad2 S ++ '.' :: pad3 F] := by
    rw [splitOnChar_append_sep (pad2_no_colon M), splitOnChar_no_sep hnc2]
  rw [ad_timestamp_to_seconds, hsplit]
  simp [parseNat?_pad2,
    parseDec?_dot (pad2_ne_nil S) (pad2_all_digit S) (pad3_ne_nil F) (pad3_all_digit F),
    natVal_pad2, natVal_pad3, pad3_length hF]
  norm_num

theorem ad_roundtrip_ms (m : Nat) :
    ad_timestamp_to_seconds (ad_seconds_to_timestamp ((m : ℚ) / 1000)) =
      some ((m : ℚ) / 1000) := by
  rw [ad_seconds_fields, ad_parse_fields _ _ _ (by omega)]
  congr 1
  have key : 60000 * (m / 60000) + 1000 * (m % 60000 / 1000) + m % 1000 = m := by omega
  have keyq : (60000 : ℚ) * ((m / 60000 : Nat) : ℚ) +
      1000 * ((m % 60000 / 1000 : Nat) : ℚ) + ((m % 1000 : Nat) : ℚ) = (m : ℚ) := by
    exact_mod_cast key
  field_simp
  linarith [keyq]

/-- Over exact rational arithmetic — the real-number idealization of the
float arithmetic the source runs on — parsing the formatted timestamp
returns x = m/1000 for every millisecond count m, both for the word-level
codec (MM:SS.mmm, audio_diarization) and the phrase-level codec
(HH:MM:SS:mmm, multilingual_transcription). The binary64 development at
the end of this file shows the real phrase-level codec does not attain
this: `int((seconds % 1) * 1000)` truncates the rounded product. -/
theorem codec_roundtrip_exact_arith (m : Nat) (hm : m < 86400000) :
    ad_timestamp_to_seconds (ad_seconds_to_timestamp ((m : ℚ) / 1000)) =
        some ((m : ℚ) / 1000) ∧
    ml_timestamp_to_seconds (ml_seconds_to_timestamp ((m : ℚ) / 1000)) =
        some ((m : ℚ) / 1000) :=
  ⟨ad_roundtrip_ms m, ml_roundtrip_ms m⟩

/-- The exact-arithmetic round trip at x = 8.2 seconds (m = 8200
milliseconds) — precisely the input the binary64 codec drops to 8.199. -/
theorem codec_roundtrip_exact_arith_inst :
    (8200 : Nat) < 86400000 ∧
    (ad_timestamp_to_seconds (ad_seconds_to_timestamp (((8200 : Nat) : ℚ) / 1000)) =
        some (((8200 : Nat) : ℚ) / 1000) ∧
      ml_timestamp_to_seconds (ml_seconds_to_timestamp (((8200 : Nat) : ℚ) / 1000)) =
        some (((8200 : Nat) : ℚ) / 1000)) :=
  ⟨by norm_num, codec_roundtrip_exact_arith 8200 (by norm_num)⟩

/-! ### Claim C7: parse disambiguation by field count and decimal point -/

theorem no_colon_of_digits {l : Str} (hd : ∀ c ∈ l, c.isDigit = true) :
    ∀ c ∈ l, c ≠ ':' :=
  fun c hc => isDigit_ne_of c ':' (by decide) (hd c hc)

theorem no_dot_of_digits {l : Str} (hd : ∀ c ∈ l, c.isDigit = true) :
    ∀ c ∈ l, c ≠ '.' :=
  fun c hc => isDigit_ne_of c '.' (by decide) (hd c hc)

theorem no_colon_dec {a b : Str} (ha : ∀ c ∈ a, c.isDigit = true)
    (hb : ∀ c ∈ b, c.isDigit = true) : ∀ c ∈ a ++ '.' :: b, c ≠ ':' := by
  intro c hc
  rcases List.mem_append.1 hc with hc | hc
  · exact no_colon_of_digits ha c hc
  rcases List.mem_cons.1 hc with hc | hc
  · subst hc; decide
  · exact no_colon_of_digits hb c hc

/-- C7: `timestamp_to_seconds` branches solely on the number of
colon-delimited fields and the presence of a decimal point in the last
field: 2 fields parse as MM:SS.mmm, 3 fields with a point as H:MM:SS.mmm,
3 fields without a point as whole-second HH:MM:SS, and 4 fields as
HH:MM:SS:mmm with colon-delimited milliseconds divided by 1000 (the same
definition appears verbatim in bengali_transcription.py). -/
theorem c7_parse_disambiguation
    (p0 p1 p2i p2f p3 : Str)
    (h0ne : p0 ≠ []) (h0 : ∀ c ∈ p0, c.isDigit = true)
    (h1ne : p1 ≠ []) (h1 : ∀ c ∈ p1, c.isDigit = true)
    (h2ine : p2i ≠ []) (h2i : ∀ c ∈ p2i, c.isDigit = true)
    (h2fne : p2f ≠ []) (h2f : ∀ c ∈ p2f, c.isDigit = true)
    (h3ne : p3 ≠ []) (h3 : ∀ c ∈ p3, c.isDigit = true) :
    ml_timestamp_to_seconds (p0 ++ ':' :: (p2i ++ '.' :: p2f)) =
      some ((natVal p0 : ℚ) * 60 +
        ((natVal p2i : ℚ) + (natVal p2f : ℚ) / 10 ^ p2f.length)) ∧
    ml_timestamp_to_seconds (p0 ++ ':' :: (p1 ++ ':' :: (p2i ++ '.' :: p2f))) =
      some ((natVal p0 : ℚ) * 3600 + (natVal p1 : ℚ) * 60 +
        ((natVal p2i : ℚ) + (natVal p2f : ℚ) / 10 ^ p2f.length)) ∧
    ml_timestamp_to_seconds (p0 ++ ':' :: (p1 ++ ':' :: p2i)) =
      some ((natVal p0 : ℚ) * 3600 + (natVal p1 : ℚ) * 60 + (natVal p2i : ℚ)) ∧
    ml_timestamp_to_seconds (p0 ++ ':' :: (p1 ++ ':' :: (p2i ++ ':' :: p3))) =
      some ((natVal p0 : ℚ) * 3600 + (natVal p1 : ℚ) * 60 + (natVal p2i : ℚ) +
        (natVal p3 : ℚ) / 1000) := by
  refine ⟨?_, ?_, ?_, ?_⟩
  · have hsplit : splitOnChar ':' (p0 ++ ':' :: (p2i ++ '.' :: p2f)) =
        [p0, p2i ++ '.' :: p2f] := by
      rw [splitOnChar_append_sep (no_colon_of_digits h0),
        splitOnChar_no_sep (no_colon_dec h2i h2f)]
    rw [ml_timestamp_to_seconds, hsplit]
    simp [parseNat?_digits h0ne h0, parseDec?_dot h2ine h2i h2fne h2f]
  · have hsplit : splitOnChar ':' (p0 ++ ':' :: (p1 ++ ':' :: (p2i ++ '.' :: p2f))) =
        [p0, p1, p2i ++ '.' :: p2f] := by
      rw [splitOnChar_append_sep (no_colon_of_digits h0),
        splitOnChar_append_sep (no_colon_of_digits h1),
        splitOnChar_no_sep (no_colon_dec h2i h2f)]
    have hdot : '.' ∈ p2i ++ '.' :: p2f :=
      List.mem_append.2 (Or.inr (List.mem_cons_self _ _))
    rw [ml_timestamp_to_seconds, hsplit]
    simp [hdot, parseNat?_digits h0ne h0, parseNat?_digits h1ne h1,
      parseDec?_dot h2ine h2i h2fne h2f]
  · have hsplit : splitOnChar ':' (p0 ++ ':' :: (p1 ++ ':' :: p2i)) =
        [p0, p1, p2i] := by
      rw [splitOnChar_append_sep (no_colon_of_digits h0),
        splitOnChar_append_sep (no_colon_of_digits h1),
        splitOnChar_no_sep (no_colon_of_digits h2i)]
    have hnodot : '.' ∉ p2i := fun hmem => no_dot_of_digits h2i '.' hmem rfl
    rw [ml_timestamp_to_seconds, hsplit]
    simp [hnodot, parseNat?_digits h0ne h0, parseNat?_digits h1ne h1,
      parseDec?_int_digits h2ine h2i]
  · have hsplit : splitOnChar ':' (p0 ++ ':' :: (p1 ++ ':' :: (p2i ++ ':' :: p3))) =
        [p0, p1, p2i, p3] := by
      rw [splitOnChar_append_sep (no_colon_of_digits h0),
        splitOnChar_append_sep (no_colon_of_digits h1),
        splitOnChar_append_sep (no_colon_of_digits h2i),
        splitOnChar_no_sep (no_colon_of_digits h3)]
    rw [ml_timestamp_to_seconds, hsplit]
    simp [parseNat?_digits h0ne h0, parseNat?_digits h1ne h1,
      parseNat?_digits h2ine h2i, parseNat?_digits h3ne h3]

/-- Witness for C7 with concrete digit fields 01, 02, 03, 450. -/
theorem c7_parse_disambiguation_witness :
    (['0', '1'] : Str) ≠ [] ∧
    (ml_timestamp_to_seconds (['0', '1'] ++ ':' :: (['0', '3'] ++ '.' :: ['4', '5', '0'])) =
      some ((natVal ['0', '1'] : ℚ) * 60 +
        ((natVal ['0', '3'] : ℚ) + (natVal ['4', '5', '0'] : ℚ) / 10 ^ (['4', '5', '0'] : Str).length)) ∧
    ml_timestamp_to_seconds (['0', '1'] ++ ':' :: (['0', '2'] ++ ':' :: (['0', '3'] ++ '.' :: ['4', '5', '0']))) =
      some ((natVal ['0', '1'] : ℚ) * 3600 + (natVal ['0', '2'] : ℚ) * 60 +
        ((natVal ['0', '3'] : ℚ) + (natVal ['4', '5', '0'] : ℚ) / 10 ^ (['4', '5', '0'] : Str).length)) ∧
    ml_timestamp_to_seconds (['0', '1'] ++ ':' :: (['0', '2'] ++ ':' :: ['0', '3'])) =
      some ((natVal ['0', '1'] : ℚ) * 3600 + (natVal ['0', '2'] : ℚ) * 60 + (natVal ['0', '3'] : ℚ)) ∧
    ml_timestamp_to_seconds (['0', '1'] ++ ':' :: (['0', '2'] ++ ':' :: (['0', '3'] ++ ':' :: ['4', '5', '0']))) =
      some ((natVal ['0', '1'] : ℚ) * 3600 + (natVal ['0', '2'] : ℚ) * 60 + (natVal ['0', '3'] : ℚ) +
        (natVal ['4', '5', '0'] : ℚ) / 1000)) :=
  ⟨by decide,
    c7_parse_disambiguation ['0', '1'] ['0', '2'] ['0', '3'] ['4', '5', '0'] ['4', '5', '0']
      (by decide) (by decide) (by decide) (by decide) (by decide)
      (by decide) (by decide) (by decide) (by decide) (by decide)⟩

/-! ### JSON values, Python dicts, and a model of `json.loads` -/

/-- A parsed JSON value. Python dicts are insertion-ordered association
lists with unique keys (`dset` below preserves that invariant). -/
inductive Json : Type where
  | null
  | bool (b : Bool)
  | num (q : ℚ)
  | str (s : Str)
  | arr (elems : List Json)
  | obj (fields : List (Str × Json))

mutual

def Json.decEq : (a b : Json) → Decidable (a = b)
  | .null, .null => isTrue rfl
  | .null, .bool _ => isFalse (fun h => Json.noConfusion h)
  | .null, .num _ => isFalse (fun h => Json.noConfusion h)
  | .null, .str _ => isFalse (fun h => Json.noConfusion h)
  | .null, .arr _ => isFalse (fun h => Json.noConfusion h)
  | .null, .obj _ => isFalse (fun h => Json.noConfusion h)
  | .bool _, .null => isFalse (fun h => Json.noConfusion h)
  | .bool a, .bool b =>
    if h : a = b then isTrue (by rw [h]) else isFalse (fun hh => by cases hh; exact h rfl)
  | .bool _, .num _ => isFalse (fun h => Json.noConfusion h)
  | .bool _, .str _ => isFalse (fun h => Json.noConfusion h)
  | .bool _, .arr _ => isFalse (fun h => Json.noConfusion h)
  | .bool _, .obj _ => isFalse (fun h => Json.noConfusion h)
  | .num _, .null => isFalse (fun h => Json.noConfusion h)
  | .num _, .bool _ => isFalse (fun h => Json.noConfusion h)
  | .num a, .num b =>
    if h : a = b then isTrue (by rw [h]) else isFalse (fun hh => by cases hh; exact h rfl)
  | .num _, .str _ => isFalse (fun h => Json.noConfusion h)
  | .num _, .arr _ => isFalse (fun h => Json.noConfusion h)
  | .num _, .obj _ => isFalse (fun h => Json.noConfusion h)
  | .str _, .null => isFalse (fun h => Json.noConfusion h)
  | .str _, .bool _ => isFalse (fun h => Json.noConfusion h)
  | .str _, .num _ => isFalse (fun h => Json.noConfusion h)
  | .str a, .str b =>
    if h : a = b then isTrue (by rw [h]) else isFalse (fun hh => by cases hh; exact h rfl)
  | .str _, .arr _ => isFalse (fun h => Json.noConfusion h)
  | .str _, .obj _ => isFalse (fun h => Json.noConfusion h)
  | .arr _, .null => isFalse (fun h => Json.noConfusion h)
  | .arr _, .bool _ => isFalse (fun h => Json.noConfusion h)
  | .arr _, .num _ => isFalse (fun h => Json.noConfusion h)
  | .arr _, .str _ => isFalse (fun h => Json.noConfusion h)
  | .arr a, .arr b =>
    match Json.decEqList a b with
    | isTrue h => isTrue (by rw [h])
    | isFalse h => isFalse (fun hh => by cases hh; exact h rfl)
  | .arr _, .obj _ => isFalse (fun h => Json.noConfusion h)
  | .obj _, .null => isFalse (fun h => Json.noConfusion h)
  | .obj _, .bool _ => isFalse (fun h => Json.noConfusion h)
  | .obj _, .num _ => isFalse (fun h => Json.noConfusion h)
  | .obj _, .str _ => isFalse (fun h => Json.noConfusion h)
  | .obj _, .arr _ => isFalse (fun h => Json.noConfusion h)
  | .obj a, .obj b =>
    match Json.decEqFields a b with
    | isTrue h => isTrue (by rw [h])
    | isFalse h => isFalse (fun hh => by cases hh; exact h rfl)

def Json.decEqList : (a b : List Json) → Decidable (a = b)
  | [], [] => isTrue rfl
  | [], _ :: _ => isFalse (fun h => List.noConfusion h)
  | _ :: _, [] => isFalse (fun h => List.noConfusion h)
  | a :: as, b :: bs =>
    match Json.decEq a b with
    | isTrue h1 =>
      match Json.decEqList as bs with
      | isTrue h2 => isTrue (by rw [h1, h2])
      | isFalse h2 => isFalse (fun hh => by cases hh; exact h2 rfl)
    | isFalse h1 => isFalse (fun hh => by cases hh; exact h1 rfl)

def Json.decEqFields : (a b : List (Str × Json)) → Decidable (a = b)
  | [], [] => isTrue rfl
  | [], _ :: _ => isFalse (fun h => List.noConfusion h)
  | _ :: _, [] => isFalse (fun h => List.noConfusion h)
  | (k1, v1) :: as, (k2, v2) :: bs =>
    if hk : k1 = k2 then
      match Json.decEq v1 v2 with
      | isTrue h1 =>
        match Json.decEqFields as bs with
        | isTrue h2 => isTrue (by rw [hk, h1, h2])
        | isFalse h2 => isFalse (fun hh => by cases hh; exact h2 rfl)
      | isFalse h1 => isFalse (fun hh => by cases hh; exact h1 rfl)
    else isFalse (fun hh => by cases hh; exact hk rfl)

end

instance : DecidableEq Json := Json.decEq

/-- A Python dict, as carried through the recovery pipeline. -/
abbrev Entry := List (Str × Json)

/-- Python `d.get(k)` / `d[k]` lookup (keys in an `Entry` are unique). -/
def dget (e : Entry) (k : Str) : Option Json :=
  match e with
  | [] => none
  | (k', v) :: rest => if k' = k then some v else dget rest k

/-- Python `d[k] = v`: overwrite in place if the key exists (keeping its
position), otherwise append at the end. -/
def dset (e : Entry) (k : Str) (v : Json) : Entry :=
  match e with
  | [] => [(k, v)]
  | (k', v') :: rest => if k' = k then (k', v) :: rest else (k', v') :: dset rest k v

/-- Python `k in d`. -/
def hasKey (e : Entry) (k : Str) : Bool := (dget e k).isSome

/-- Python truthiness of an optional JSON value (`None` and a missing value
are falsy, as are empty strings/containers and zero). -/
def pyTruthy : Option Json → Bool
  | none => false
  | some .null => false
  | some (.bool b) => b
  | some (.num q) => decide (q ≠ 0)
  | some (.str s) => !s.isEmpty
  | some (.arr l) => !l.isEmpty
  | some (.obj l) => !l.isEmpty

/-- Python f-string rendering of a JSON value. Strings render as
themselves, which is the only case the pipeline's concatenation of `word`
fields exercises; the remaining renderings are placeholders for
unreachable value shapes. -/
def pyFormat : Json → Str
  | .str s => s
  | .bool true => "True".data
  | .bool false => "False".data
  | .null => "None".data
  | .num q => (if q.num < 0 then ['-'] else []) ++ natToChars q.num.natAbs
  | .arr _ => "[...]".data
  | .obj _ => "<dict>".data

/-- JSON whitespace. -/
def isJsonWs (c : Char) : Bool := c = ' ' || c = '\t' || c = '\n' || c = '\r'

/-- Drop leading JSON whitespace. -/
def skipWs (s : Str) : Str := s.dropWhile isJsonWs

/-- Hexadecimal digit value. -/
def hexVal? (c : Char) : Option Nat :=
  if c.isDigit then some (c.toNat - 48)
  else if 'a' ≤ c ∧ c ≤ 'f' then some (c.toNat - 87)
  else if 'A' ≤ c ∧ c ≤ 'F' then some (c.toNat - 55)
  else none

/-- Parse the body of a JSON string (the opening quote already consumed):
returns content and the remainder after the closing quote. Strict mode, as
`json.loads` defaults: raw control characters below 0x20 are rejected.
Astral escapes via surrogate pairs are out of scope (never produced here). -/
def parseJStr (fuel : Nat) (s : Str) : Option (Str × Str) :=
  match fuel, s with
  | 0, _ => none
  | _, [] => none
  | fuel + 1, c :: rest =>
    if c = '"' then some ([], rest)
    else if c = '\\' then
      match rest with
      | [] => none
      | e :: rest2 =>
        let esc : Option (Char × Str) :=
          if e = '"' then some ('"', rest2)
          else if e = '\\' then some ('\\', rest2)
          else if e = '/' then some ('/', rest2)
          else if e = 'b' then some ('\x08', rest2)
          else if e = 'f' then some ('\x0c', rest2)
          else if e = 'n' then some ('\n', rest2)
          else if e = 'r' then some ('\r', rest2)
          else if e = 't' then some ('\t', rest2)
          else if e = 'u' then
            match rest2 with
            | h1 :: h2 :: h3 :: h4 :: rest3 => do
              let a ← hexVal? h1
              let b ← hexVal? h2
              let c3 ← hexVal? h3
              let d ← hexVal? h4
              pure (Char.ofNat (((a * 16 + b) * 16 + c3) * 16 + d), rest3)
            | _ => none
          else none
        match esc with
        | none => none
        | some (ch, rest') =>
          (parseJStr fuel rest').map (fun p => (ch :: p.1, p.2))
    else if c.toNat < 32 then none
    else (parseJStr fuel rest).map (fun p => (c :: p.1, p.2))

/-- Parse a JSON number: `-?(0|[1-9][0-9]*)(.digits)?([eE][+-]?digits)?`. -/
def parseJNum (s : Str) : Option (ℚ × Str) :=
  let (neg, s1) := match s with
    | '-' :: r => (true, r)
    | _ => (false, s)
  let ip := s1.takeWhile Char.isDigit
  let r1 := s1.dropWhile Char.isDigit
  if ip.isEmpty then none
  else if ip.length > 1 && ip.headI = '0' then none
  else
    let (fracDigits, r2) : Str × Str := match r1 with
      | '.' :: rr => (rr.takeWhile Char.isDigit, rr.dropWhile Char.isDigit)
      | _ => ([], r1)
    if r1 ≠ [] ∧ r1.headI = '.' ∧ fracDigits.isEmpty then none
    else
      let (expPart, r3) : Option (Bool × Nat) × Str := match r2 with
        | 'e' :: '+' :: rr => ((rr.takeWhile Char.isDigit, rr.dropWhile Char.isDigit) |>
            fun p => if p.1.isEmpty then (none, r2) else (some (false, natVal p.1), p.2))
        | 'e' :: '-' :: rr => ((rr.takeWhile Char.isDigit, rr.dropWhile Char.isDigit) |>
            fun p => if p.1.isEmpty then (none, r2) else (some (true, natVal p.1), p.2))
        | 'e' :: rr => ((rr.takeWhile Char.isDigit, rr.dropWhile Char.isDigit) |>
            fun p => if p.1.isEmpty then (none, r2) else (some (false, natVal p.1), p.2))
        | 'E' :: '+' :: rr => ((rr.takeWhile Char.isDigit, rr.dropWhile Char.isDigit) |>
            fun p => if p.1.isEmpty then (none, r2) else (some (false, natVal p.1), p.2))
        | 'E' :: '-' :: rr => ((rr.takeWhile Char.isDigit, rr.dropWhile Char.isDigit) |>
            fun p => if p.1.isEmpty then (none, r2) else (some (true, natVal p.1), p.2))
        | 'E' :: rr => ((rr.takeWhile Char.isDigit, rr.dropWhile Char.isDigit) |>
            fun p => if p.1.isEmpty then (none, r2) else (some (false, natVal p.1), p.2))
        | _ => (none, r2)
      let base : ℚ := (natVal ip : ℚ) + (natVal fracDigits : ℚ) / 10 ^ fracDigits.length
      let scaled : ℚ := match expPart with
        | none => base
        | some (false, e) => base * 10 ^ e
        | some (true, e) => base / 10 ^ e
      some ((if neg then -scaled else scaled), r3)

mutual

/-- Parse one JSON value, as `json.loads` does (without the nonstandard
`NaN`/`Infinity` extension, which this program never receives). -/
def parseJVal : Nat → Str → Option (Json × Str)
  | 0, _ => none
  | fuel + 1, s =>
    match skipWs s with
    | [] => none
    | '"' :: rest =>
      (parseJStr (rest.length + 1) rest).map (fun p => (Json.str p.1, p.2))
    | '[' :: rest =>
      match skipWs rest with
      | ']' :: rr => some (Json.arr [], rr)
      | other => (parseJArrElems fuel other).map (fun p => (Json.arr p.1, p.2))
    | 't' :: 'r' :: 'u' :: 'e' :: rest => some (Json.bool true, rest)
    | 'f' :: 'a' :: 'l' :: 's' :: 'e' :: rest => some (Json.bool false, rest)
    | 'n' :: 'u' :: 'l' :: 'l' :: rest => some (Json.null, rest)
    | c :: rest =>
      if c = '\x7b' then
        match skipWs rest with
        | [] => none
        | c2 :: rr =>
          if c2 = '\x7d' then some (Json.obj [], rr)
          else (parseJObjFields fuel (c2 :: rr) []).map (fun p => (Json.obj p.1, p.2))
      else if c = '-' || c.isDigit then
        (parseJNum (c :: rest)).map (fun p => (Json.num p.1, p.2))
      else none

/-- Parse one or more comma-separated array elements followed by a closing
bracket (a trailing comma is a syntax error, as in `json.loads`). -/
def parseJArrElems : Nat → Str → Option (List Json × Str)
  | 0, _ => none
  | fuel + 1, s => do
    let (v, r) ← parseJVal fuel s
    match skipWs r with
    | ',' :: r2 => (parseJArrElems fuel r2).map (fun p => (v :: p.1, p.2))
    | ']' :: r2 => some ([v], r2)
    | _ => none

/-- Parse one or more `"key": value` members followed by a closing brace
(a trailing comma is a syntax error); duplicate keys overwrite as Python
dict insertion does. -/
def parseJObjFields : Nat → Str → Entry → Option (Entry × Str)
  | 0, _, _ => none
  | fuel + 1, s, acc =>
    match skipWs s with
    | '"' :: r => do
      let (key, r1) ← parseJStr (r.length + 1) r
      match skipWs r1 with
      | ':' :: r3 => do
        let (v, r4) ← parseJVal fuel r3
        let acc2 := dset acc key v
        match skipWs r4 with
        | ',' :: r6 => parseJObjFields fuel r6 acc2
        | c :: r6 => if c = '\x7d' then some (acc2, r6) else none
        | [] => none
      | _ => none
    | _ => none

end

/-- Python `json.loads`: parse one value and require only whitespace after. -/
def loads (s : Str) : Option Json :=
  match parseJVal (2 * s.length + 8) s with
  | some (v, r) => if (skipWs r).isEmpty then some v else none
  | none => none

/-! ### Response extractor pipeline -/

/-- Python whitespace, as matched by regex `\s` and by `str.strip()`. -/
def isPyWs (c : Char) : Bool :=
  c = ' ' || c = '\t' || c = '\n' || c = '\r' || c = '\x0b' || c = '\x0c'

/-- Python `s.strip()`. -/
def strip (s : Str) : Str :=
  ((s.dropWhile isPyWs).reverse.dropWhile isPyWs).reverse

/-- Index of the first occurrence of `pat` as a contiguous substring. -/
def findSubFrom (pat : Str) : Str → Nat → Option Nat
  | s, i =>
    if pat.isPrefixOf s then some i
    else
      match s with
      | [] => none
      | _ :: rest => findSubFrom pat rest (i + 1)

def findSub (s pat : Str) : Option Nat := findSubFrom pat s 0

/-- The fenced-block extraction of both extractors:
`re.search(r'...json\s*(.*?)...', content, re.DOTALL)` with a fallback to
the unterminated pattern, then `.group(1).strip()`. The lazy group runs
from after the opening fence's trailing whitespace to the next closing
fence, or to the end of text when no closing fence exists. -/
def extractJsonBlock (content : Str) : Option Str :=
  match findSub content "```json".data with
  | none => none
  | some p =>
    let after := content.drop (p + 7)
    let rest := after.dropWhile isPyWs
    match findSub rest "```".data with
    | some r => some (strip (rest.take r))
    | none => some (strip rest)

/-- Split a whitespace run at its last newline: `w = w₁ ++ '\n' :: w₂` with
no newline in `w₂`. -/
def lastNewlineSplit (w : Str) : Option (Str × Str) :=
  let rev := w.reverse
  let a := rev.takeWhile (fun c => !(c = '\n'))
  if a.length = rev.length then none
  else some ((rev.drop (a.length + 1)).reverse, a.reverse)

/-- Scanner for `re.sub(r'(\d+\.\d+),(\s*\n)', r'\1",\2', s)` in
`audio_diarization.safe_extract_json`: a decimal number directly followed
by a comma and whitespace containing a newline gets a closing quote
inserted before the comma. -/
def fixQuote1Go : Nat → Str → Str
  | 0, s => s
  | _ + 1, [] => []
  | fuel + 1, c :: rest =>
    if c.isDigit then
      let a := (c :: rest).takeWhile Char.isDigit
      let r1 := (c :: rest).dropWhile Char.isDigit
      match r1 with
      | '.' :: r2 =>
        let b := r2.takeWhile Char.isDigit
        let r3 := r2.dropWhile Char.isDigit
        if b.isEmpty then c :: fixQuote1Go fuel rest
        else
          match r3 with
          | ',' :: r4 =>
            let w := r4.takeWhile isPyWs
            let r5 := r4.dropWhile isPyWs
            match lastNewlineSplit w with
            | some (w1, w2) =>
              a ++ '.' :: b ++ '"' :: ',' :: (w1 ++ ['\n']) ++ fixQuote1Go fuel (w2 ++ r5)
            | none => c :: fixQuote1Go fuel rest
          | _ => c :: fixQuote1Go fuel rest
      | _ => c :: fixQuote1Go fuel rest
    else c :: fixQuote1Go fuel rest

def fixQuote1 (s : Str) : Str := fixQuote1Go (s.length + 1) s

/-- Scanner for `re.sub(r'(\d+\.\d+)(\s*\n\s*"end")', r'\1"\2', s)`: a
decimal number followed by newline-containing whitespace and a literal
`"end"` gets a closing quote inserted after the number. -/
def fixQuote2Go : Nat → Str → Str
  | 0, s => s
  | _ + 1, [] => []
  | fuel + 1, c :: rest =>
    if c.isDigit then
      let a := (c :: rest).takeWhile Char.isDigit
      let r1 := (c :: rest).dropWhile Char.isDigit
      match r1 with
      | '.' :: r2 =>
        let b := r2.takeWhile Char.isDigit
        let r3 := r2.dropWhile Char.isDigit
        let w := r3.takeWhile isPyWs
        let r4 := r3.dropWhile isPyWs
        if b.isEmpty || !(w.contains '\n') then c :: fixQuote2Go fuel rest
        else
          match r4 with
          | '"' :: 'e' :: 'n' :: 'd' :: '"' :: r5 =>
            a ++ '.' :: b ++ '"' :: (w ++ '"' :: 'e' :: 'n' :: 'd' :: '"' :: fixQuote2Go fuel r5)
          | _ => c :: fixQuote2Go fuel rest
      | _ => c :: fixQuote2Go fuel rest
    else c :: fixQuote2Go fuel rest

def fixQuote2 (s : Str) : Str := fixQuote2Go (s.length + 1) s

/-- Removal of raw control characters below 0x20 other than newline,
carriage return and tab. -/
def stripCtrl (s : Str) : Str :=
  s.filter (fun c => decide (32 ≤ c.toNat) || c == '\n' || c == '\r' || c == '\t')

def endsWithChar (c : Char) (s : Str) : Bool :=
  match s.getLast? with
  | some x => x == c
  | none => false

def startsWithChar (c : Char) (s : Str) : Bool :=
  match s with
  | x :: _ => x == c
  | [] => false

/-- Python `s.rfind(c)`: index of the last occurrence. -/
def rfindChar (c : Char) (s : Str) : Option Nat :=
  match s with
  | [] => none
  | x :: rest =>
    match rfindChar c rest with
    | some j => some (j + 1)
    | none => if x = c then some 0 else none

/-- The truncation-recovery step shared by both extractors: when the text
does not end with a closing bracket, truncate just after the last complete
closing brace and reterminate the array. -/
def handleIncomplete (json_str : Str) : Str :=
  if endsWithChar ']' json_str then json_str
  else
    match rfindChar '\x7d' json_str with
    | some i =>
      let t := json_str.take (i + 1)
      if endsWithChar ']' t then t else t ++ '\n' :: [']']
    | none => json_str

/-- Wrap bare content in array brackets unless already array-delimited. -/
def wrapArray (s : Str) : Str :=
  if startsWithChar '[' s && endsWithChar ']' s then s else '[' :: (s ++ [']'])

/-- Scanner for `re.sub(r',\s*([\]}])', r'\1', s)`: drop a comma standing
(modulo whitespace) directly before a closing bracket or brace. -/
def stripTrailingCommasGo : Nat → Str → Str
  | 0, s => s
  | _ + 1, [] => []
  | fuel + 1, c :: rest =>
    if c = ',' then
      let r1 := rest.dropWhile isPyWs
      match r1 with
      | b :: r2 =>
        if b = ']' || b = '\x7d' then b :: stripTrailingCommasGo fuel r2
        else c :: stripTrailingCommasGo fuel rest
      | [] => c :: stripTrailingCommasGo fuel rest
    else c :: stripTrailingCommasGo fuel rest

def stripTrailingCommas (s : Str) : Str := stripTrailingCommasGo (s.length + 1) s

/-- Helper for the aggressive repair: `"start":` / `"end":` key head with
the opening quote already consumed. -/
def keySplit : Str → Option (Str × Str)
  | 's' :: 't' :: 'a' :: 'r' :: 't' :: '"' :: ':' :: r => some ("start".data, r)
  | 'e' :: 'n' :: 'd' :: '"' :: ':' :: r => some ("end".data, r)
  | _ => none

def matchDigits1 (s : Str) : Option (Str × Str) :=
  let d := s.takeWhile Char.isDigit
  if d.isEmpty then none else some (d, s.dropWhile Char.isDigit)

/-- Helper for the aggressive repair: match `\d+:\d+\.\d+` followed by a
comma or newline delimiter. -/
def matchTsTail (s : Str) : Option (Str × Char × Str) := do
  let (d1, r1) ← matchDigits1 s
  match r1 with
  | ':' :: r2 => do
    let (d2, r3) ← matchDigits1 r2
    match r3 with
    | '.' :: r4 => do
      let (d3, r5) ← matchDigits1 r4
      match r5 with
      | ',' :: r6 => some (d1 ++ ':' :: d2 ++ '.' :: d3, ',', r6)
      | '\n' :: r6 => some (d1 ++ ':' :: d2 ++ '.' :: d3, '\n', r6)
      | _ => none
    | _ => none
  | _ => none

/-- Scanner for the aggressive repair
`re.sub(r'"(start|end)":\s*"(\d+:\d+\.\d+)([,\n])', r'"\1": "\2"\3', s)`
of `audio_diarization.safe_extract_json`: reinstate the missing closing
quote of a timestamp value. -/
def aggFixGo : Nat → Str → Str
  | 0, s => s
  | _ + 1, [] => []
  | fuel + 1, c :: rest =>
    if c = '"' then
      match keySplit rest with
      | some (key, r1) =>
        let r2 := r1.dropWhile isPyWs
        match r2 with
        | '"' :: r3 =>
          match matchTsTail r3 with
          | some (num, delim, r4) =>
            '"' :: (key ++ '"' :: ':' :: ' ' :: '"' :: num) ++ '"' :: delim ::
              aggFixGo fuel r4
          | none => c :: aggFixGo fuel rest
        | _ => c :: aggFixGo fuel rest
      | none => c :: aggFixGo fuel rest
    else c :: aggFixGo fuel rest

def aggFix (s : Str) : Str := aggFixGo (s.length + 1) s

/-! ### Validation, deduplication, and the two extractors -/

def kStart : Str := "start".data
def kEnd : Str := "end".data
def kWord : Str := "word".data
def kTextCap : Str := "Text".data
def kText : Str := "text".data

/-- The deduplication key `(item.get('start'), item.get('end'))`. -/
def entryKey (e : Entry) : Option Json × Option Json := (dget e kStart, dget e kEnd)

/-- `multilingual_transcription.deduplicate_entries` (identical in
bengali_transcription): keep the first occurrence of each (start, end) key. -/
def mlDedupGo (seen : List (Option Json × Option Json)) : List Entry → List Entry
  | [] => []
  | item :: rest =>
    if entryKey item ∈ seen then mlDedupGo seen rest
    else item :: mlDedupGo (entryKey item :: seen) rest

def ml_deduplicate_entries (items : List Entry) : List Entry := mlDedupGo [] items

/-- The in-place merge of `audio_diarization.deduplicate_entries`: find the
first retained entry with the duplicate's (start, end) key and, when it is
truthy (non-empty) and its `word` differs, concatenate the duplicate's
`word` onto it space-separated. Missing `word` values render through
`pyFormat Json.null` where Python would raise a `KeyError` (the pipeline
only reaches this merge with `word` present). -/
def adMergeWord (item : Entry) : List Entry → List Entry
  | [] => []
  | x :: rest =>
    if dget x kStart = dget item kStart ∧ dget x kEnd = dget item kEnd then
      if !x.isEmpty && decide (dget x kWord ≠ dget item kWord) then
        dset x kWord (Json.str (pyFormat ((dget x kWord).getD Json.null) ++
          ' ' :: pyFormat ((dget item kWord).getD Json.null))) :: rest
      else x :: rest
    else x :: adMergeWord item rest

/-- `audio_diarization.deduplicate_entries`: keep first occurrences,
merging divergent `word` text of later duplicates onto the kept entry. -/
def adDedupGo (seen : List (Option Json × Option Json)) (dedup : List Entry) :
    List Entry → List Entry
  | [] => dedup
  | item :: rest =>
    if entryKey item ∈ seen then adDedupGo seen (adMergeWord item dedup) rest
    else adDedupGo (entryKey item :: seen) (dedup ++ [item]) rest

def ad_deduplicate_entries (items : List Entry) : List Entry := adDedupGo [] [] items

/-- Field validation of the word-level extractor: require start/end, accept
`Text`/`text` as aliases for `word`, drop items without any text payload.
Non-dict array elements are skipped (Python would raise a `TypeError`
there; the pipeline only receives arrays of objects). -/
def ad_validate : List Json → List Entry
  | [] => []
  | Json.obj item :: rest =>
    if !(hasKey item kStart && hasKey item kEnd) then ad_validate rest
    else if !hasKey item kWord && (hasKey item kTextCap || hasKey item kText) then
      (dset item kWord
        (if pyTruthy (dget item kTextCap) then (dget item kTextCap).getD Json.null
         else (dget item kText).getD Json.null)) :: ad_validate rest
    else if !hasKey item kWord then ad_validate rest
    else item :: ad_validate rest
  | _ :: rest => ad_validate rest

def mlRequiredKeys : List Str :=
  [kStart, kEnd, "text".data, "speaker".data, "language".data, "emotion".data,
    "end_of_speech".data]

/-- Field validation of the phrase-level extractor: all seven fields must be
present. Non-dict array elements are skipped (as above). -/
def ml_validate : List Json → List Entry
  | [] => []
  | Json.obj item :: rest =>
    if mlRequiredKeys.all (fun k => hasKey item k) then item :: ml_validate rest
    else ml_validate rest
  | _ :: rest => ml_validate rest

inductive ExtractErr : Type where
  | noJsonBlock
  | parseFailed
  | noValidEntries
deriving DecidableEq

/-- The text-massaging stage of `multilingual_transcription.safe_extract_json`:
extract the fenced block, recover truncation, wrap into an array, strip
trailing commas. -/
def ml_prepare (content : Str) : Option Str :=
  (extractJsonBlock content).map (fun s =>
    stripTrailingCommas (wrapArray (handleIncomplete s)))

/-- Validation/deduplication stage applied to the parsed JSON value (always
an array: the prepared text is array-delimited). -/
def ml_postParse (v : Json) : Except ExtractErr (List Entry) :=
  match v with
  | Json.arr items =>
    let valid := ml_validate items
    if valid.isEmpty then Except.error ExtractErr.noValidEntries
    else Except.ok (ml_deduplicate_entries valid)
  | _ => Except.error ExtractErr.noValidEntries

/-- `multilingual_transcription.safe_extract_json`: on a parse failure the
phrase-level extractor raises immediately — it has no repair retry. -/
def ml_safe_extract_json (content : Str) : Except ExtractErr (List Entry) :=
  match ml_prepare content with
  | none => Except.error ExtractErr.noJsonBlock
  | some json_str =>
    match loads json_str with
    | none => Except.error ExtractErr.parseFailed
    | some v => ml_postParse v

/-- The text-massaging stage of `audio_diarization.safe_extract_json`:
extract, apply the two quote repairs, strip control characters, recover
truncation, wrap into an array, strip trailing commas. -/
def ad_prepare (content : Str) : Option Str :=
  (extractJsonBlock content).map (fun s =>
    stripTrailingCommas (wrapArray (handleIncomplete (stripCtrl (fixQuote2 (fixQuote1 s))))))

def ad_postParse (v : Json) : Except ExtractErr (List Entry) :=
  match v with
  | Json.arr items =>
    let valid := ad_validate items
    if valid.isEmpty then Except.error ExtractErr.noValidEntries
    else Except.ok (ad_deduplicate_entries valid)
  | _ => Except.error ExtractErr.noValidEntries

/-- `audio_diarization.safe_extract_json`: on a parse failure the word-level
extractor applies the aggressive timestamp-quote repair and retries the
parse exactly once; a second failure is terminal. -/
def ad_safe_extract_json (content : Str) : Except ExtractErr (List Entry) :=
  match ad_prepare content with
  | none => Except.error ExtractErr.noJsonBlock
  | some json_str =>
    match loads json_str with
    | some v => ad_postParse v
    | none =>
      match loads (aggFix json_str) with
      | some v => ad_postParse v
      | none => Except.error ExtractErr.parseFailed

instance {e a : Type} [DecidableEq e] [DecidableEq a] : DecidableEq (Except e a) :=
  fun x y =>
    match x, y with
    | .ok v, .ok w =>
      if h : v = w then isTrue (by rw [h]) else isFalse (fun hh => by cases hh; exact h rfl)
    | .error v, .error w =>
      if h : v = w then isTrue (by rw [h]) else isFalse (fun hh => by cases hh; exact h rfl)
    | .ok _, .error _ => isFalse (fun hh => Except.noConfusion hh)
    | .error _, .ok _ => isFalse (fun hh => Except.noConfusion hh)

/-! ### Claim C3: truncation recovery -/

theorem rfindChar_of_not_mem {c : Char} {u : Str} (h : ∀ x ∈ u, x ≠ c) :
    rfindChar c u = none := by
  induction u with
  | nil => rfl
  | cons x rest ih =>
    rw [rfindChar, ih (fun y hy => h y (List.mem_cons_of_mem x hy))]
    simp [h x (List.mem_cons_self x rest)]

theorem rfindChar_last {c : Char} (t : Str) {u : Str} (h : ∀ x ∈ u, x ≠ c) :
    rfindChar c (t ++ c :: u) = some t.length := by
  induction t with
  | nil =>
    rw [List.nil_append, rfindChar, rfindChar_of_not_mem h]
    simp
  | cons x rest ih =>
    rw [List.cons_append, rfindChar, ih]
    rfl

theorem take_last_brace (t : Str) (c : Char) (u : Str) :
    (t ++ c :: u).take (t.length + 1) = t ++ [c] := by
  rw [List.take_append_eq_append_take, List.take_of_length_le (by omega)]
  simp

/-- The spec's example input (a response cut off mid-second-object). -/
def exC3Input : Str :=
  "```json\n[\x7b\"start\":\"00:00:01.000\",\"end\":\"00:00:02.000\",\"word\":\"hi\",\"language\":\"EN\"\x7d,\x7b\"start\":\"00:00:02.000\",\"end\":\"00:0".data

/-- The single entry that extraction of the example must produce: the
complete first object, unchanged. -/
def exC3Entry : Entry :=
  [(kStart, Json.str "00:00:01.000".data), (kEnd, Json.str "00:00:02.000".data),
    (kWord, Json.str "hi".data), ("language".data, Json.str "EN".data)]

set_option maxRecDepth 40000 in
/-- C3: whenever the extracted text does not end with a closing bracket,
the truncation step cuts immediately after the last closing brace (any
text containing a brace decomposes uniquely as `t ++ brace :: u` with `u`
brace-free) and appends a closing bracket; and on the spec's example
input the word-level extractor yields exactly the one complete first
object, dropping the cut-off second object. -/
theorem c3_truncation_recovery (t u : Str) (hu : ∀ x ∈ u, x ≠ '\x7d')
    (hne : endsWithChar ']' (t ++ '\x7d' :: u) = false) :
    handleIncomplete (t ++ '\x7d' :: u) = (t ++ ['\x7d']) ++ '\n' :: [']'] ∧
    ad_safe_extract_json exC3Input = Except.ok [exC3Entry] := by
  constructor
  · rw [handleIncomplete, hne]
    simp only [Bool.false_eq_true, if_false]
    rw [rfindChar_last t hu]
    simp only [take_last_brace]
    have hlast : endsWithChar ']' (t ++ ['\x7d']) = false := by
      rw [endsWithChar]
      simp
    rw [hlast]
    simp
  · decide

/-- Witness for C3 with the decomposition of the example's extracted text. -/
theorem c3_truncation_recovery_witness :
    (∀ x ∈ (",\x7b\"start\":\"00:00:02.000\",\"end\":\"00:0".data : Str), x ≠ '\x7d') ∧
    (handleIncomplete
        ("[\x7b\"start\":\"00:00:01.000\",\"end\":\"00:00:02.000\",\"word\":\"hi\",\"language\":\"EN\"".data ++
          '\x7d' :: ",\x7b\"start\":\"00:00:02.000\",\"end\":\"00:0".data) =
      ("[\x7b\"start\":\"00:00:01.000\",\"end\":\"00:00:02.000\",\"word\":\"hi\",\"language\":\"EN\"".data ++
        ['\x7d']) ++ '\n' :: [']'] ∧
    ad_safe_extract_json exC3Input = Except.ok [exC3Entry]) :=
  ⟨by decide,
    c3_truncation_recovery
      "[\x7b\"start\":\"00:00:01.000\",\"end\":\"00:00:02.000\",\"word\":\"hi\",\"language\":\"EN\"".data
      ",\x7b\"start\":\"00:00:02.000\",\"end\":\"00:0".data (by decide) (by decide)⟩

/-! ### Claim C4: repair-retry behaviour of the two extractors -/

/-- A word-level response whose first parse fails (timestamp missing its
closing quote, no newline so the pre-repairs do not apply) and which the
aggressive repair fixes. -/
def adC4Input : Str :=
  "```json\n[\x7b\"start\": \"0:01.000, \"end\": \"0:02.000\", \"word\": \"hi\", \"language\": \"EN\"\x7d]\n```".data

/-- The word-level extractor's massaged text for `adC4Input`. -/
def adC4Prepared : Str :=
  "[\x7b\"start\": \"0:01.000, \"end\": \"0:02.000\", \"word\": \"hi\", \"language\": \"EN\"\x7d]".data

/-- A phrase-level response with the same defect class (closing quote of a
timestamp missing before a newline). -/
def mlC4Input : Str :=
  "```json\n[\x7b\"start\": \"0:01.000,\n\"end\": \"0:02.000\", \"text\": \"hi\", \"speaker\": \"Speaker A\", \"language\": \"EN\", \"emotion\": \"calm\", \"end_of_speech\": false\x7d]\n```".data

/-- The phrase-level extractor's massaged text for `mlC4Input`. -/
def mlC4Prepared : Str :=
  "[\x7b\"start\": \"0:01.000,\n\"end\": \"0:02.000\", \"text\": \"hi\", \"speaker\": \"Speaker A\", \"language\": \"EN\", \"emotion\": \"calm\", \"end_of_speech\": false\x7d]".data

set_option maxRecDepth 100000 in
/-- C4 counterexample: on `mlC4Input` the phrase-level extractor's first
parse fails, the targeted timestamp-quote repair would make the parse
succeed and yield valid entries, yet the extractor fails terminally — so
the claim that both extractors repair and retry once is false. -/
theorem c4_counterexample_no_ml_retry :
    ml_safe_extract_json mlC4Input = Except.error ExtractErr.parseFailed ∧
    (ml_prepare mlC4Input).map (fun s => (loads s).isSome) = some false ∧
    (ml_prepare mlC4Input).map (fun s => (loads (aggFix s)).isSome) = some true ∧
    (ml_prepare mlC4Input).map (fun s =>
      match loads (aggFix s) with
      | some v => (ml_postParse v).isOk
      | none => false) = some true := by
  refine ⟨by decide, by decide, by decide, by decide⟩

/-- C4 amended: the word-level extractor, when its first structured parse
fails, applies the one targeted timestamp-quote repair and retries exactly
once — the outcome is fully determined by that second parse, with no
further repair attempts; the phrase-level extractor fails terminally on
its first parse failure with no repair attempt. -/
theorem c4_repair_retry (c1 c2 s1 s2 : Str)
    (h1 : ad_prepare c1 = some s1) (h2 : loads s1 = none)
    (h3 : ml_prepare c2 = some s2) (h4 : loads s2 = none) :
    ad_safe_extract_json c1 =
      (match loads (aggFix s1) with
        | some v => ad_postParse v
        | none => Except.error ExtractErr.parseFailed) ∧
    ml_safe_extract_json c2 = Except.error ExtractErr.parseFailed := by
  constructor
  · simp only [ad_safe_extract_json, h1, h2]
  · simp only [ml_safe_extract_json, h3, h4]

set_option maxRecDepth 100000 in
/-- Witness for C4 on the two concrete inputs above. -/
theorem c4_repair_retry_witness :
    (ad_prepare adC4Input = some adC4Prepared ∧ loads adC4Prepared = none ∧
      ml_prepare mlC4Input = some mlC4Prepared ∧ loads mlC4Prepared = none) ∧
    (ad_safe_extract_json adC4Input =
      (match loads (aggFix adC4Prepared) with
        | some v => ad_postParse v
        | none => Except.error ExtractErr.parseFailed) ∧
    ml_safe_extract_json mlC4Input = Except.error ExtractErr.parseFailed) :=
  ⟨⟨by decide, by decide, by decide, by decide⟩,
    c4_repair_retry adC4Input mlC4Input adC4Prepared mlC4Prepared
      (by decide) (by decide) (by decide) (by decide)⟩

/-! ### Claims C5 and C9: deduplication -/

theorem dget_dset_self (e : Entry) (k : Str) (v : Json) :
    dget (dset e k v) k = some v := by
  induction e with
  | nil => simp [dset, dget]
  | cons a rest ih =>
    rw [dset]
    by_cases h : a.1 = k
    · simp [dget, h]
    · simp [dget, h, ih]

theorem dget_dset_ne (e : Entry) (k k' : Str) (v : Json) (h : k ≠ k') :
    dget (dset e k v) k' = dget e k' := by
  induction e with
  | nil => simp [dset, dget, h]
  | cons a rest ih =>
    rw [dset]
    by_cases ha : a.1 = k
    · rw [if_pos ha, dget, dget, if_neg (by rw [ha]; exact h), if_neg (by rw [ha]; exact h)]
    · rw [if_neg ha, dget, dget]
      by_cases ha' : a.1 = k'
      · rw [if_pos ha', if_pos ha']
      · rw [if_neg ha', if_neg ha', ih]

/-- Fuel-driven worker for `firstOccs` (fuel bounds the recursion depth;
the wrapper supplies enough). -/
def firstOccsGo : Nat → List Entry → List Entry
  | 0, _ => []
  | _ + 1, [] => []
  | fuel + 1, e :: rest =>
    e :: firstOccsGo fuel (rest.filter (fun x => !decide (entryKey x = entryKey e)))

/-- First occurrence of each distinct (start, end) key, in input order:
the spec-side characterization of deduplication. -/
def firstOccs (l : List Entry) : List Entry := firstOccsGo l.length l

theorem firstOccsGo_fuel (fuel : Nat) : ∀ l : List Entry, l.length ≤ fuel →
    firstOccsGo fuel l = firstOccs l := by
  induction fuel using Nat.strong_induction_on with
  | _ fuel ih =>
    intro l hl
    cases l with
    | nil => cases fuel <;> rfl
    | cons e rest =>
      cases fuel with
      | zero => simp at hl
      | succ k =>
        rw [firstOccsGo, firstOccs, List.length_cons, firstOccsGo]
        congr 1
        have hrest : rest.length ≤ k := by simpa using hl
        have hF : (rest.filter (fun x => !decide (entryKey x = entryKey e))).length ≤
            rest.length := List.length_filter_le _ _
        rw [ih k (Nat.lt_succ_self k) _ (le_trans hF hrest),
          ih rest.length (Nat.lt_succ_of_le hrest) _ hF]

theorem firstOccs_cons (e : Entry) (rest : List Entry) :
    firstOccs (e :: rest) =
      e :: firstOccs (rest.filter (fun x => !decide (entryKey x = entryKey e))) := by
  rw [firstOccs, List.length_cons, firstOccsGo]
  congr 1
  exact firstOccsGo_fuel _ _ (List.length_filter_le _ _)

theorem mlDedupGo_eq (items : List Entry) : ∀ seen,
    mlDedupGo seen items =
      firstOccs (items.filter (fun x => !decide (entryKey x ∈ seen))) := by
  induction items with
  | nil => intro seen; rfl
  | cons e rest ih =>
    intro seen
    by_cases h : entryKey e ∈ seen
    · rw [mlDedupGo, if_pos h, List.filter_cons]
      simp only [h, decide_eq_true_eq]
      rw [if_neg (by simp [h])]
      exact ih seen
    · rw [mlDedupGo, if_neg h, List.filter_cons, if_pos (by simp [h]), firstOccs_cons]
      congr 1
      rw [List.filter_filter, ih (entryKey e :: seen)]
      congr 1
      apply List.filter_congr
      intro x _
      simp only [List.mem_cons, not_or]
      by_cases h1 : entryKey x = entryKey e <;> by_cases h2 : entryKey x ∈ seen <;>
        simp [h1, h2]

theorem ml_dedup_firstOccs (items : List Entry) :
    ml_deduplicate_entries items = firstOccs items := by
  rw [ml_deduplicate_entries, mlDedupGo_eq items []]
  congr 1
  rw [List.filter_eq_self]
  intro a _
  simp

theorem adMergeWord_keys (item : Entry) (l : List Entry) :
    (adMergeWord item l).map entryKey = l.map entryKey := by
  induction l with
  | nil => rfl
  | cons x rest ih =>
    rw [adMergeWord]
    by_cases h : dget x kStart = dget item kStart ∧ dget x kEnd = dget item kEnd
    · rw [if_pos h]
      split
      · simp only [List.map_cons]
        congr 1
        rw [entryKey, entryKey, dget_dset_ne _ _ _ _ (by decide),
          dget_dset_ne _ _ _ _ (by decide)]
      · rfl
    · rw [if_neg h]
      simp only [List.map_cons, ih]

theorem adDedupGo_keys (items : List Entry) : ∀ seen dedup,
    (adDedupGo seen dedup items).map entryKey =
      dedup.map entryKey ++ (mlDedupGo seen items).map entryKey := by
  induction items with
  | nil => intro seen dedup; simp [adDedupGo, mlDedupGo]
  | cons e rest ih =>
    intro seen dedup
    by_cases h : entryKey e ∈ seen
    · rw [adDedupGo, if_pos h, mlDedupGo, if_pos h, ih, adMergeWord_keys]
    · rw [adDedupGo, if_neg h, mlDedupGo, if_neg h, ih]
      simp

theorem ad_dedup_keys (items : List Entry) :
    (ad_deduplicate_entries items).map entryKey =
      (ml_deduplicate_entries items).map entryKey := by
  rw [ad_deduplicate_entries, ml_deduplicate_entries, adDedupGo_keys]
  rfl

theorem firstOccsGo_subset (fuel : Nat) : ∀ l : List Entry,
    ∀ b ∈ firstOccsGo fuel l, b ∈ l := by
  induction fuel with
  | zero => intro l b hb; cases hb
  | succ fuel ih =>
    intro l b hb
    cases l with
    | nil => cases hb
    | cons e rest =>
      rw [firstOccsGo] at hb
      rcases List.mem_cons.1 hb with hb | hb
      · exact hb ▸ List.mem_cons_self _ _
      · exact List.mem_cons_of_mem _ (List.mem_of_mem_filter (ih _ b hb))

theorem firstOccsGo_pairwise (fuel : Nat) : ∀ l : List Entry,
    (firstOccsGo fuel l).Pairwise (fun a b => entryKey a ≠ entryKey b) := by
  induction fuel with
  | zero => intro l; exact List.Pairwise.nil
  | succ fuel ih =>
    intro l
    cases l with
    | nil => exact List.Pairwise.nil
    | cons e rest =>
      rw [firstOccsGo]
      refine List.Pairwise.cons ?_ (ih _)
      intro b hb
      have hmem := firstOccsGo_subset fuel _ b hb
      have hf := List.of_mem_filter hmem
      simp only [Bool.not_eq_true', decide_eq_false_iff_not] at hf
      exact fun he => hf (he ▸ rfl)

theorem firstOccs_pairwise (l : List Entry) :
    (firstOccs l).Pairwise (fun a b => entryKey a ≠ entryKey b) :=
  firstOccsGo_pairwise l.length l

/-- C9 counterexample entries: identical (start, end), words `a` and `b`. -/
def c9e1 : Entry :=
  [(kStart, Json.str "00:00:01.000".data), (kEnd, Json.str "00:00:02.000".data),
    (kWord, Json.str "a".data)]

def c9e2 : Entry :=
  [(kStart, Json.str "00:00:01.000".data), (kEnd, Json.str "00:00:02.000".data),
    (kWord, Json.str "b".data)]

/-- C9 counterexample: in word-level mode the retained entry is not the
first occurrence unchanged — its `word` has the later duplicate's word
appended — so "the retained entries are exactly the first occurrence of
each distinct (start, end) key" fails for `audio_diarization`. -/
theorem c9_counterexample_word_mutated :
    firstOccs [c9e1, c9e2] = [c9e1] ∧
    ad_deduplicate_entries [c9e1, c9e2] ≠ [c9e1] := by
  constructor
  · decide
  · decide

/-- C9 amended: after deduplication no two retained entries share an
identical (start, end) pair, in either variant; the phrase-level variant
retains exactly the first occurrence of each distinct key in input order;
the word-level variant retains entries with exactly those keys in that
order, but may extend a kept entry's `word` field (see C5). -/
theorem c9_dedup_uniqueness (items : List Entry) :
    ml_deduplicate_entries items = firstOccs items ∧
    (ad_deduplicate_entries items).map entryKey = (firstOccs items).map entryKey ∧
    (ml_deduplicate_entries items).Pairwise (fun a b => entryKey a ≠ entryKey b) ∧
    (ad_deduplicate_entries items).Pairwise (fun a b => entryKey a ≠ entryKey b) := by
  refine ⟨ml_dedup_firstOccs items, ?_, ?_, ?_⟩
  · rw [ad_dedup_keys, ml_dedup_firstOccs]
  · rw [ml_dedup_firstOccs]; exact firstOccs_pairwise items
  · have hpair := firstOccs_pairwise items
    rw [← List.pairwise_map (f := entryKey)] at hpair
    rw [← ml_dedup_firstOccs, ← ad_dedup_keys] at hpair
    rw [List.pairwise_map] at hpair
    exact hpair

theorem adDedup_pair (E1 E2 : Entry)
    (hk : entryKey E2 = entryKey E1)
    (hs : dget E1 kStart = dget E2 kStart) (he : dget E1 kEnd = dget E2 kEnd)
    (hword : (!E1.isEmpty && decide (dget E1 kWord ≠ dget E2 kWord)) = true) :
    ad_deduplicate_entries [E1, E2] =
      [dset E1 kWord (Json.str (pyFormat ((dget E1 kWord).getD Json.null) ++
        ' ' :: pyFormat ((dget E2 kWord).getD Json.null)))] := by
  rw [ad_deduplicate_entries, adDedupGo, if_neg (List.not_mem_nil _), adDedupGo,
    if_pos (by rw [hk]; exact List.mem_singleton.2 rfl), adDedupGo]
  simp only [List.nil_append]
  rw [adMergeWord, if_pos ⟨hs, he⟩, if_pos hword]

theorem mlDedup_pair (E1 E2 : Entry) (hk : entryKey E2 = entryKey E1) :
    ml_deduplicate_entries [E1, E2] = [E1] := by
  rw [ml_deduplicate_entries, mlDedupGo, if_neg (List.not_mem_nil _), mlDedupGo,
    if_pos (by rw [hk]; exact List.mem_singleton.2 rfl), mlDedupGo]

/-- C5: two entries with identical (start, end) and differing texts `w1`
then `w2` deduplicate, in word-level mode, to the first entry with its
`word` becoming `w1 ++ " " ++ w2`; in phrase-level mode the first entry is
kept with its `text` unchanged and the duplicate discarded. -/
theorem c5_dedup_merge_policy (s e w1 w2 : Str) (hne : w1 ≠ w2) :
    ad_deduplicate_entries
      [[(kStart, Json.str s), (kEnd, Json.str e), (kWord, Json.str w1)],
        [(kStart, Json.str s), (kEnd, Json.str e), (kWord, Json.str w2)]] =
      [[(kStart, Json.str s), (kEnd, Json.str e), (kWord, Json.str (w1 ++ ' ' :: w2))]] ∧
    ml_deduplicate_entries
      [[(kStart, Json.str s), (kEnd, Json.str e), (kText, Json.str w1)],
        [(kStart, Json.str s), (kEnd, Json.str e), (kText, Json.str w2)]] =
      [[(kStart, Json.str s), (kEnd, Json.str e), (kText, Json.str w1)]] := by
  constructor
  · rw [adDedup_pair
      [(kStart, Json.str s), (kEnd, Json.str e), (kWord, Json.str w1)]
      [(kStart, Json.str s), (kEnd, Json.str e), (kWord, Json.str w2)]
      rfl rfl rfl
      (by
        have h1 : dget [(kStart, Json.str s), (kEnd, Json.str e), (kWord, Json.str w1)]
            kWord = some (Json.str w1) := rfl
        have h2 : dget [(kStart, Json.str s), (kEnd, Json.str e), (kWord, Json.str w2)]
            kWord = some (Json.str w2) := rfl
        simp [h1, h2, hne])]
    rfl
  · exact mlDedup_pair
      [(kStart, Json.str s), (kEnd, Json.str e), (kText, Json.str w1)]
      [(kStart, Json.str s), (kEnd, Json.str e), (kText, Json.str w2)] rfl

/-- Witness for C5 with words `a` and `b`. -/
theorem c5_dedup_merge_policy_witness :
    ("a".data ≠ "b".data) ∧
    (ad_deduplicate_entries
      [[(kStart, Json.str "00:00:01.000".data), (kEnd, Json.str "00:00:02.000".data),
          (kWord, Json.str "a".data)],
        [(kStart, Json.str "00:00:01.000".data), (kEnd, Json.str "00:00:02.000".data),
          (kWord, Json.str "b".data)]] =
      [[(kStart, Json.str "00:00:01.000".data), (kEnd, Json.str "00:00:02.000".data),
          (kWord, Json.str ("a".data ++ ' ' :: "b".data))]] ∧
    ml_deduplicate_entries
      [[(kStart, Json.str "00:00:01.000".data), (kEnd, Json.str "00:00:02.000".data),
          (kText, Json.str "a".data)],
        [(kStart, Json.str "00:00:01.000".data), (kEnd, Json.str "00:00:02.000".data),
          (kText, Json.str "b".data)]] =
      [[(kStart, Json.str "00:00:01.000".data), (kEnd, Json.str "00:00:02.000".data),
          (kText, Json.str "a".data)]]) :=
  ⟨by decide, c5_dedup_merge_policy "00:00:01.000".data "00:00:02.000".data
    "a".data "b".data (by decide)⟩

/-! ### Chunk merger -/

/-- Option-valued map over a list, failing at the first failure — the
shape of a Python loop whose body may raise. -/
def omapM {a b : Type} (f : a → Option b) : List a → Option (List b)
  | [] => some []
  | x :: rest => do
    let y ← f x
    let ys ← omapM f rest
    pure (y :: ys)

/-- Stable insertion for `sorted(data.items(), key=lambda x: x[0])`. -/
def insertByKey (p : Nat × List Entry) : List (Nat × List Entry) → List (Nat × List Entry)
  | [] => [p]
  | q :: rest => if p.1 < q.1 then p :: q :: rest else q :: insertByKey p rest

/-- Python `sorted` on dict items by integer key. -/
def sortByKey (l : List (Nat × List Entry)) : List (Nat × List Entry) :=
  l.foldr insertByKey []

/-- The per-entry body of `merge_json_with_offset` (phrase-level codec):
copy the entry and rewrite `start` and `end` through parse → add offset →
format. `none` models the exceptions Python raises on a missing or
non-string timestamp (KeyError / AttributeError) or a malformed one
(ValueError). -/
def ml_shiftEntry (offset_seconds : ℚ) (entry : Entry) : Option Entry :=
  match dget entry kStart, dget entry kEnd with
  | some (Json.str s), some (Json.str e) => do
    let sv ← ml_timestamp_to_seconds s
    let ev ← ml_timestamp_to_seconds e
    pure (dset (dset entry kStart
      (Json.str (ml_seconds_to_timestamp (sv + offset_seconds)))) kEnd
      (Json.str (ml_seconds_to_timestamp (ev + offset_seconds))))
  | _, _ => none

/-- `multilingual_transcription.merge_json_with_offset`: iterate chunks in
ascending index order, shift each entry by `index * time_offset` seconds,
concatenate. -/
def ml_merge_json_with_offset (data : List (Nat × List Entry)) (time_offset : Nat) :
    Option (List Entry) :=
  (omapM (fun (p : Nat × List Entry) =>
    omapM (ml_shiftEntry ((p.1 : ℚ) * (time_offset : ℚ))) p.2) (sortByKey data)).map
    List.flatten

/-- The per-entry body of `audio_diarization.merge_json_with_offset`
(word-level codec). -/
def ad_shiftEntry (offset_seconds : ℚ) (entry : Entry) : Option Entry :=
  match dget entry kStart, dget entry kEnd with
  | some (Json.str s), some (Json.str e) => do
    let sv ← ad_timestamp_to_seconds s
    let ev ← ad_timestamp_to_seconds e
    pure (dset (dset entry kStart
      (Json.str (ad_seconds_to_timestamp (sv + offset_seconds)))) kEnd
      (Json.str (ad_seconds_to_timestamp (ev + offset_seconds))))
  | _, _ => none

/-- `audio_diarization.merge_json_with_offset`. -/
def ad_merge_json_with_offset (data : List (Nat × List Entry)) (time_offset : Nat) :
    Option (List Entry) :=
  (omapM (fun (p : Nat × List Entry) =>
    omapM (ad_shiftEntry ((p.1 : ℚ) * (time_offset : ℚ))) p.2) (sortByKey data)).map
    List.flatten

theorem insertByKey_perm (p : Nat × List Entry) (l : List (Nat × List Entry)) :
    (insertByKey p l).Perm (p :: l) := by
  induction l with
  | nil => exact List.Perm.refl _
  | cons q rest ih =>
    rw [insertByKey]
    split
    · exact List.Perm.refl _
    · exact ((ih.cons q).trans (List.Perm.swap p q rest))

theorem sortByKey_perm (l : List (Nat × List Entry)) : (sortByKey l).Perm l := by
  induction l with
  | nil => exact List.Perm.refl _
  | cons p rest ih =>
    exact (insertByKey_perm p (sortByKey rest)).trans (ih.cons p)

theorem insertByKey_sorted (p : Nat × List Entry) (l : List (Nat × List Entry))
    (h : l.Pairwise (fun a b => a.1 ≤ b.1)) :
    (insertByKey p l).Pairwise (fun a b => a.1 ≤ b.1) := by
  induction l with
  | nil => exact List.pairwise_singleton _ _
  | cons q rest ih =>
    rw [insertByKey]
    rcases List.pairwise_cons.1 h with ⟨hq, hrest⟩
    split
    · next hlt =>
      refine List.Pairwise.cons ?_ h
      intro b hb
      rcases List.mem_cons.1 hb with hb | hb
      · exact hb ▸ le_of_lt hlt
      · exact le_trans (le_of_lt hlt) (hq b hb)
    · next hge =>
      refine List.Pairwise.cons ?_ (ih hrest)
      intro b hb
      have hmem := (insertByKey_perm p rest).mem_iff.1 hb
      rcases List.mem_cons.1 hmem with hb' | hb'
      · exact hb' ▸ le_of_not_lt hge
      · exact hq b hb'

theorem sortByKey_sorted (l : List (Nat × List Entry)) :
    (sortByKey l).Pairwise (fun a b => a.1 ≤ b.1) := by
  induction l with
  | nil => exact List.Pairwise.nil
  | cons p rest ih => exact insertByKey_sorted p _ ih

theorem sortByKey_eq_of_sorted (data data' : List (Nat × List Entry))
    (hperm : data.Perm data')
    (hlt : data'.Pairwise (fun a b => a.1 < b.1)) :
    sortByKey data = data' := by
  haveI : IsAntisymm (Nat × List Entry) (fun a b => a.1 < b.1) :=
    ⟨fun a b hab hba => absurd (lt_trans hab hba) (lt_irrefl _)⟩
  have hperm2 : (sortByKey data).Perm data' := (sortByKey_perm data).trans hperm
  have hkeys' : (data'.map Prod.fst).Pairwise (fun a b => a ≠ b) :=
    List.pairwise_map.2 (hlt.imp (fun h => ne_of_lt h))
  have hkeys : ((sortByKey data).map Prod.fst).Pairwise (fun a b => a ≠ b) :=
    ((hperm2.map Prod.fst).nodup_iff).2 hkeys'
  have hne : (sortByKey data).Pairwise (fun a b => a.1 ≠ b.1) :=
    List.pairwise_map.1 hkeys
  have hsorted_lt : (sortByKey data).Pairwise (fun a b => a.1 < b.1) :=
    ((sortByKey_sorted data).and hne).imp (fun h => lt_of_le_of_ne h.1 h.2)
  exact List.eq_of_perm_of_sorted hperm2 hsorted_lt hlt

/-! ### Claim C2: merge correctness and ordering -/

theorem roundtrip_shift_ml (m i t : Nat) :
    ml_timestamp_to_seconds (ml_seconds_to_timestamp ((m : ℚ) / 1000 + (i : ℚ) * (t : ℚ))) =
      some ((m : ℚ) / 1000 + (i : ℚ) * (t : ℚ)) := by
  have hq : (m : ℚ) / 1000 + (i : ℚ) * (t : ℚ) = ((m + 1000 * (i * t) : ℕ) : ℚ) / 1000 := by
    push_cast
    ring
  rw [hq, ml_roundtrip_ms]

theorem roundtrip_shift_ad (m i t : Nat) :
    ad_timestamp_to_seconds (ad_seconds_to_timestamp ((m : ℚ) / 1000 + (i : ℚ) * (t : ℚ))) =
      some ((m : ℚ) / 1000 + (i : ℚ) * (t : ℚ)) := by
  have hq : (m : ℚ) / 1000 + (i : ℚ) * (t : ℚ) = ((m + 1000 * (i * t) : ℕ) : ℚ) / 1000 := by
    push_cast
    ring
  rw [hq, ad_roundtrip_ms]

/-- An entry whose `start` and `end` are well-formed millisecond-granular
timestamp strings of the phrase-level schema. -/
def mlTsOk (e : Entry) : Prop :=
  (∃ s : Str, ∃ m : Nat, dget e kStart = some (Json.str s) ∧
    ml_timestamp_to_seconds s = some ((m : ℚ) / 1000)) ∧
  (∃ s : Str, ∃ m : Nat, dget e kEnd = some (Json.str s) ∧
    ml_timestamp_to_seconds s = some ((m : ℚ) / 1000))

/-- An entry whose `start` and `end` are well-formed millisecond-granular
timestamp strings of the word-level schema. -/
def adTsOk (e : Entry) : Prop :=
  (∃ s : Str, ∃ m : Nat, dget e kStart = some (Json.str s) ∧
    ad_timestamp_to_seconds s = some ((m : ℚ) / 1000)) ∧
  (∃ s : Str, ∃ m : Nat, dget e kEnd = some (Json.str s) ∧
    ad_timestamp_to_seconds s = some ((m : ℚ) / 1000))

theorem ml_shiftEntry_shifts (i t : Nat) (e : Entry) (hok : mlTsOk e) :
    ∃ e', ml_shiftEntry ((i : ℚ) * (t : ℚ)) e = some e' ∧
      (∀ s q, dget e kStart = some (Json.str s) → ml_timestamp_to_seconds s = some q →
        ∃ s', dget e' kStart = some (Json.str s') ∧
          ml_timestamp_to_seconds s' = some (q + (i : ℚ) * (t : ℚ))) ∧
      (∀ s q, dget e kEnd = some (Json.str s) → ml_timestamp_to_seconds s = some q →
        ∃ s', dget e' kEnd = some (Json.str s') ∧
          ml_timestamp_to_seconds s' = some (q + (i : ℚ) * (t : ℚ))) := by
  obtain ⟨⟨s1, m1, hs1, hp1⟩, ⟨s2, m2, hs2, hp2⟩⟩ := hok
  refine ⟨dset (dset e kStart (Json.str (ml_seconds_to_timestamp
      ((m1 : ℚ) / 1000 + (i : ℚ) * (t : ℚ))))) kEnd
      (Json.str (ml_seconds_to_timestamp ((m2 : ℚ) / 1000 + (i : ℚ) * (t : ℚ)))),
    ?_, ?_, ?_⟩
  · rw [ml_shiftEntry, hs1, hs2]
    simp only [hp1, hp2, Option.bind_eq_bind, Option.some_bind]
    rfl
  · intro s q hs hq
    rw [hs1] at hs
    have hss : s = _ := (Json.str.inj (Option.some.inj hs)).symm
    rw [hss, hp1] at hq
    have hqe : q = (m1 : ℚ) / 1000 := (Option.some.inj hq).symm
    refine ⟨ml_seconds_to_timestamp ((m1 : ℚ) / 1000 + (i : ℚ) * (t : ℚ)), ?_, ?_⟩
    · rw [dget_dset_ne _ _ _ _ (by decide), dget_dset_self]
    · rw [roundtrip_shift_ml, hqe]
  · intro s q hs hq
    rw [hs2] at hs
    have hss : s = _ := (Json.str.inj (Option.some.inj hs)).symm
    rw [hss, hp2] at hq
    have hqe : q = (m2 : ℚ) / 1000 := (Option.some.inj hq).symm
    refine ⟨ml_seconds_to_timestamp ((m2 : ℚ) / 1000 + (i : ℚ) * (t : ℚ)), ?_, ?_⟩
    · rw [dget_dset_self]
    · rw [roundtrip_shift_ml, hqe]

theorem ad_shiftEntry_shifts (i t : Nat) (e : Entry) (hok : adTsOk e) :
    ∃ e', ad_shiftEntry ((i : ℚ) * (t : ℚ)) e = some e' ∧
      (∀ s q, dget e kStart = some (Json.str s) → ad_timestamp_to_seconds s = some q →
        ∃ s', dget e' kStart = some (Json.str s') ∧
          ad_timestamp_to_seconds s' = some (q + (i : ℚ) * (t : ℚ))) ∧
      (∀ s q, dget e kEnd = some (Json.str s) → ad_timestamp_to_seconds s = some q →
        ∃ s', dget e' kEnd = some (Json.str s') ∧
          ad_timestamp_to_seconds s' = some (q + (i : ℚ) * (t : ℚ))) := by
  obtain ⟨⟨s1, m1, hs1, hp1⟩, ⟨s2, m2, hs2, hp2⟩⟩ := hok
  refine ⟨dset (dset e kStart (Json.str (ad_seconds_to_timestamp
      ((m1 : ℚ) / 1000 + (i : ℚ) * (t : ℚ))))) kEnd
      (Json.str (ad_seconds_to_timestamp ((m2 : ℚ) / 1000 + (i : ℚ) * (t : ℚ)))),
    ?_, ?_, ?_⟩
  · rw [ad_shiftEntry, hs1, hs2]
    simp only [hp1, hp2, Option.bind_eq_bind, Option.some_bind]
    rfl
  · intro s q hs hq
    rw [hs1] at hs
    have hss : s = _ := (Json.str.inj (Option.some.inj hs)).symm
    rw [hss, hp1] at hq
    have hqe : q = (m1 : ℚ) / 1000 := (Option.some.inj hq).symm
    refine ⟨ad_seconds_to_timestamp ((m1 : ℚ) / 1000 + (i : ℚ) * (t : ℚ)), ?_, ?_⟩
    · rw [dget_dset_ne _ _ _ _ (by decide), dget_dset_self]
    · rw [roundtrip_shift_ad, hqe]
  · intro s q hs hq
    rw [hs2] at hs
    have hss : s = _ := (Json.str.inj (Option.some.inj hs)).symm
    rw [hss, hp2] at hq
    have hqe : q = (m2 : ℚ) / 1000 := (Option.some.inj hq).symm
    refine ⟨ad_seconds_to_timestamp ((m2 : ℚ) / 1000 + (i : ℚ) * (t : ℚ)), ?_, ?_⟩
    · rw [dget_dset_self]
    · rw [roundtrip_shift_ad, hqe]

/-- Over exact rational arithmetic — the real-number idealization of the
float arithmetic the source runs on — `merge_json_with_offset` returns
exactly the concatenation of the per-chunk lists taken in ascending
numeric chunk-index order (`data'` is the ascending arrangement of the
arbitrary-order map `data`), with no global re-sort, and every entry of
chunk `i` has both timestamps shifted by exactly `i * t` seconds, in both
the phrase-level and word-level variants. The binary64 development at the
end of this file shows the real phrase-level merger does not shift
exactly: its parse → add → format cycle can lose a millisecond. -/
theorem merge_concat_order_exact_arith
    (mld mld' add add' : List (Nat × List Entry)) (t : Nat)
    (hmlperm : mld.Perm mld') (hmllt : mld'.Pairwise (fun a b => a.1 < b.1))
    (hadperm : add.Perm add') (hadlt : add'.Pairwise (fun a b => a.1 < b.1))
    (hmlok : ∀ p ∈ mld', ∀ e ∈ p.2, mlTsOk e)
    (hadok : ∀ p ∈ add', ∀ e ∈ p.2, adTsOk e) :
    ml_merge_json_with_offset mld t =
      (omapM (fun (p : Nat × List Entry) =>
        omapM (ml_shiftEntry ((p.1 : ℚ) * (t : ℚ))) p.2) mld').map List.flatten ∧
    ad_merge_json_with_offset add t =
      (omapM (fun (p : Nat × List Entry) =>
        omapM (ad_shiftEntry ((p.1 : ℚ) * (t : ℚ))) p.2) add').map List.flatten ∧
    (∀ p ∈ mld', ∀ e ∈ p.2, ∃ e',
      ml_shiftEntry ((p.1 : ℚ) * (t : ℚ)) e = some e' ∧
      (∀ s q, dget e kStart = some (Json.str s) → ml_timestamp_to_seconds s = some q →
        ∃ s', dget e' kStart = some (Json.str s') ∧
          ml_timestamp_to_seconds s' = some (q + (p.1 : ℚ) * (t : ℚ))) ∧
      (∀ s q, dget e kEnd = some (Json.str s) → ml_timestamp_to_seconds s = some q →
        ∃ s', dget e' kEnd = some (Json.str s') ∧
          ml_timestamp_to_seconds s' = some (q + (p.1 : ℚ) * (t : ℚ)))) ∧
    (∀ p ∈ add', ∀ e ∈ p.2, ∃ e',
      ad_shiftEntry ((p.1 : ℚ) * (t : ℚ)) e = some e' ∧
      (∀ s q, dget e kStart = some (Json.str s) → ad_timestamp_to_seconds s = some q →
        ∃ s', dget e' kStart = some (Json.str s') ∧
          ad_timestamp_to_seconds s' = some (q + (p.1 : ℚ) * (t : ℚ))) ∧
      (∀ s q, dget e kEnd = some (Json.str s) → ad_timestamp_to_seconds s = some q →
        ∃ s', dget e' kEnd = some (Json.str s') ∧
          ad_timestamp_to_seconds s' = some (q + (p.1 : ℚ) * (t : ℚ)))) := by
  refine ⟨?_, ?_, ?_, ?_⟩
  · rw [ml_merge_json_with_offset, sortByKey_eq_of_sorted mld mld' hmlperm hmllt]
  · rw [ad_merge_json_with_offset, sortByKey_eq_of_sorted add add' hadperm hadlt]
  · intro p hp e he
    exact ml_shiftEntry_shifts p.1 t e (hmlok p hp e he)
  · intro p hp e he
    exact ad_shiftEntry_shifts p.1 t e (hadok p hp e he)

theorem parse_ml_ts1 :
    ml_timestamp_to_seconds "00:00:01:000".data = some (((1000 : Nat) : ℚ) / 1000) := by
  rw [show ("00:00:01:000".data : Str) =
      pad2 0 ++ ':' :: (pad2 0 ++ ':' :: (pad2 1 ++ ':' :: pad3 0)) by
    simp [pad2, pad3, natToChars, digitToChar]]
  rw [ml_parse_four]
  norm_num

theorem parse_ml_ts2 :
    ml_timestamp_to_seconds "00:00:02:000".data = some (((2000 : Nat) : ℚ) / 1000) := by
  rw [show ("00:00:02:000".data : Str) =
      pad2 0 ++ ':' :: (pad2 0 ++ ':' :: (pad2 2 ++ ':' :: pad3 0)) by
    simp [pad2, pad3, natToChars, digitToChar]]
  rw [ml_parse_four]
  norm_num

theorem parse_ad_ts1 :
    ad_timestamp_to_seconds "00:01.000".data = some (((1000 : Nat) : ℚ) / 1000) := by
  rw [show ("00:01.000".data : Str) = pad2 0 ++ ':' :: (pad2 1 ++ '.' :: pad3 0) by
    simp [pad2, pad3, natToChars, digitToChar]]
  rw [ad_parse_fields 0 1 0 (by norm_num)]
  norm_num

theorem parse_ad_ts2 :
    ad_timestamp_to_seconds "00:02.000".data = some (((2000 : Nat) : ℚ) / 1000) := by
  rw [show ("00:02.000".data : Str) = pad2 0 ++ ':' :: (pad2 2 ++ '.' :: pad3 0) by
    simp [pad2, pad3, natToChars, digitToChar]]
  rw [ad_parse_fields 0 2 0 (by norm_num)]
  norm_num

def c2eml : Entry :=
  [(kStart, Json.str "00:00:01:000".data), (kEnd, Json.str "00:00:02:000".data)]

def c2ead : Entry :=
  [(kStart, Json.str "00:01.000".data), (kEnd, Json.str "00:02.000".data)]

def c2mld : List (Nat × List Entry) := [(1, [c2eml]), (0, [c2eml])]
def c2mld' : List (Nat × List Entry) := [(0, [c2eml]), (1, [c2eml])]
def c2add : List (Nat × List Entry) := [(1, [c2ead]), (0, [c2ead])]
def c2add' : List (Nat × List Entry) := [(0, [c2ead]), (1, [c2ead])]

theorem c2eml_ok : mlTsOk c2eml :=
  ⟨⟨"00:00:01:000".data, 1000, rfl, parse_ml_ts1⟩,
    ⟨"00:00:02:000".data, 2000, rfl, parse_ml_ts2⟩⟩

theorem c2ead_ok : adTsOk c2ead :=
  ⟨⟨"00:01.000".data, 1000, rfl, parse_ad_ts1⟩,
    ⟨"00:02.000".data, 2000, rfl, parse_ad_ts2⟩⟩

/-- The exact-arithmetic merge result on the same chunk map in completion
order 1, 0 versus ascending order 0, 1, with offset 300. -/
theorem merge_concat_order_exact_arith_inst :
    (c2mld.Perm c2mld' ∧ c2mld'.Pairwise (fun a b => a.1 < b.1) ∧
      c2add.Perm c2add' ∧ c2add'.Pairwise (fun a b => a.1 < b.1) ∧
      (∀ p ∈ c2mld', ∀ e ∈ p.2, mlTsOk e) ∧ (∀ p ∈ c2add', ∀ e ∈ p.2, adTsOk e)) ∧
    ml_merge_json_with_offset c2mld 300 =
      (omapM (fun (p : Nat × List Entry) =>
        omapM (ml_shiftEntry ((p.1 : ℚ) * ((300 : Nat) : ℚ))) p.2) c2mld').map
        List.flatten ∧
    ad_merge_json_with_offset c2add 300 =
      (omapM (fun (p : Nat × List Entry) =>
        omapM (ad_shiftEntry ((p.1 : ℚ) * ((300 : Nat) : ℚ))) p.2) c2add').map
        List.flatten := by
  have hokml : ∀ p ∈ c2mld', ∀ e ∈ p.2, mlTsOk e := by
    intro p hp e he
    have hpe : p.2 = [c2eml] := by
      rcases List.mem_cons.1 hp with h | h
      · rw [h]
      · rcases List.mem_cons.1 h with h | h
        · rw [h]
        · cases h
    rw [hpe] at he
    rw [List.mem_singleton.1 he]
    exact c2eml_ok
  have hokad : ∀ p ∈ c2add', ∀ e ∈ p.2, adTsOk e := by
    intro p hp e he
    have hpe : p.2 = [c2ead] := by
      rcases List.mem_cons.1 hp with h | h
      · rw [h]
      · rcases List.mem_cons.1 h with h | h
        · rw [h]
        · cases h
    rw [hpe] at he
    rw [List.mem_singleton.1 he]
    exact c2ead_ok
  have hperm1 : c2mld.Perm c2mld' := List.Perm.swap _ _ _
  have hperm2 : c2add.Perm c2add' := List.Perm.swap _ _ _
  have H := merge_concat_order_exact_arith c2mld c2mld' c2add c2add' 300 hperm1 (by decide)
    hperm2 (by decide) hokml hokad
  exact ⟨⟨hperm1, by decide, hperm2, by decide, hokml, hokad⟩, H.1, H.2.1⟩

/-! ### Claim C10: merger frame property -/

theorem omapM_mem {a b : Type} (f : a → Option b) :
    ∀ (l : List a) (out : List b), omapM f l = some out →
      ∀ y ∈ out, ∃ x ∈ l, f x = some y := by
  intro l
  induction l with
  | nil =>
    intro out h y hy
    rw [omapM] at h
    rw [← Option.some.inj h] at hy
    cases hy
  | cons x rest ih =>
    intro out h y hy
    rw [omapM] at h
    rcases Option.bind_eq_some.1 h with ⟨y1, hy1, h2⟩
    rcases Option.bind_eq_some.1 h2 with ⟨ys, hys, h3⟩
    rw [← Option.some.inj h3] at hy
    rcases List.mem_cons.1 hy with hy | hy
    · exact ⟨x, List.mem_cons_self _ _, hy ▸ hy1⟩
    · rcases ih ys hys y hy with ⟨x', hx', hfx'⟩
      exact ⟨x', List.mem_cons_of_mem _ hx', hfx'⟩

theorem ml_shiftEntry_frame (off : ℚ) (e o : Entry)
    (h : ml_shiftEntry off e = some o) :
    ∀ k, k ≠ kStart → k ≠ kEnd → dget o k = dget e k := by
  rw [ml_shiftEntry] at h
  split at h
  · rcases Option.bind_eq_some.1 h with ⟨q1, _, h2⟩
    rcases Option.bind_eq_some.1 h2 with ⟨q2, _, h3⟩
    intro k hk1 hk2
    rw [← Option.some.inj h3]
    rw [dget_dset_ne _ _ _ _ (Ne.symm hk2), dget_dset_ne _ _ _ _ (Ne.symm hk1)]
  · cases h

theorem ad_shiftEntry_frame (off : ℚ) (e o : Entry)
    (h : ad_shiftEntry off e = some o) :
    ∀ k, k ≠ kStart → k ≠ kEnd → dget o k = dget e k := by
  rw [ad_shiftEntry] at h
  split at h
  · rcases Option.bind_eq_some.1 h with ⟨q1, _, h2⟩
    rcases Option.bind_eq_some.1 h2 with ⟨q2, _, h3⟩
    intro k hk1 hk2
    rw [← Option.some.inj h3]
    rw [dget_dset_ne _ _ _ _ (Ne.symm hk2), dget_dset_ne _ _ _ _ (Ne.symm hk1)]
  · cases h

/-- C10: every entry in `merge_json_with_offset`'s output agrees with its
originating input entry on every key other than `start` and `end` (each
output entry is a fresh copy with only the two timestamp fields
rewritten), in both variants. -/
theorem c10_merge_frame (d1 d2 : List (Nat × List Entry)) (t1 t2 : Nat)
    (o1 o2 : List Entry)
    (h1 : ml_merge_json_with_offset d1 t1 = some o1)
    (h2 : ad_merge_json_with_offset d2 t2 = some o2) :
    (∀ o ∈ o1, ∃ p, p ∈ d1 ∧ ∃ e ∈ p.2,
      ∀ k, k ≠ kStart → k ≠ kEnd → dget o k = dget e k) ∧
    (∀ o ∈ o2, ∃ p, p ∈ d2 ∧ ∃ e ∈ p.2,
      ∀ k, k ≠ kStart → k ≠ kEnd → dget o k = dget e k) := by
  constructor
  · intro o ho
    rw [ml_merge_json_with_offset] at h1
    rcases Option.map_eq_some'.1 h1 with ⟨chunks, hchunks, hflat⟩
    rw [← hflat] at ho
    rcases List.mem_flatten.1 ho with ⟨c, hc, hoc⟩
    rcases omapM_mem _ _ _ hchunks c hc with ⟨p, hp, hpc⟩
    rcases omapM_mem _ _ _ hpc o hoc with ⟨e, he, hoe⟩
    exact ⟨p, (sortByKey_perm d1).mem_iff.1 hp, e, he,
      ml_shiftEntry_frame _ _ _ hoe⟩
  · intro o ho
    rw [ad_merge_json_with_offset] at h2
    rcases Option.map_eq_some'.1 h2 with ⟨chunks, hchunks, hflat⟩
    rw [← hflat] at ho
    rcases List.mem_flatten.1 ho with ⟨c, hc, hoc⟩
    rcases omapM_mem _ _ _ hchunks c hc with ⟨p, hp, hpc⟩
    rcases omapM_mem _ _ _ hpc o hoc with ⟨e, he, hoe⟩
    exact ⟨p, (sortByKey_perm d2).mem_iff.1 hp, e, he,
      ad_shiftEntry_frame _ _ _ hoe⟩

/-- The shifted copy of `c2eml` at chunk index 0, offset 300. -/
def c10mlOut : Entry :=
  dset (dset c2eml kStart (Json.str (ml_seconds_to_timestamp
    (((1000 : Nat) : ℚ) / 1000 + ((0 : Nat) : ℚ) * ((300 : Nat) : ℚ))))) kEnd
    (Json.str (ml_seconds_to_timestamp
      (((2000 : Nat) : ℚ) / 1000 + ((0 : Nat) : ℚ) * ((300 : Nat) : ℚ))))

/-- The shifted copy of `c2ead` at chunk index 0, offset 300. -/
def c10adOut : Entry :=
  dset (dset c2ead kStart (Json.str (ad_seconds_to_timestamp
    (((1000 : Nat) : ℚ) / 1000 + ((0 : Nat) : ℚ) * ((300 : Nat) : ℚ))))) kEnd
    (Json.str (ad_seconds_to_timestamp
      (((2000 : Nat) : ℚ) / 1000 + ((0 : Nat) : ℚ) * ((300 : Nat) : ℚ))))

theorem c10ml_merge_eval :
    ml_merge_json_with_offset [(0, [c2eml])] 300 = some [c10mlOut] := by
  have hshift : ml_shiftEntry (((0 : Nat) : ℚ) * ((300 : Nat) : ℚ)) c2eml =
      some c10mlOut := by
    have hg1 : dget c2eml kStart = some (Json.str "00:00:01:000".data) := rfl
    have hg2 : dget c2eml kEnd = some (Json.str "00:00:02:000".data) := rfl
    have hp1 : ml_timestamp_to_seconds
        ['0', '0', ':', '0', '0', ':', '0', '1', ':', '0', '0', '0'] =
        some (((1000 : Nat) : ℚ) / 1000) := parse_ml_ts1
    have hp2 : ml_timestamp_to_seconds
        ['0', '0', ':', '0', '0', ':', '0', '2', ':', '0', '0', '0'] =
        some (((2000 : Nat) : ℚ) / 1000) := parse_ml_ts2
    simp only [ml_shiftEntry, hg1, hg2, hp1, hp2]
    rfl
  have hF : omapM (ml_shiftEntry (((0 : Nat) : ℚ) * ((300 : Nat) : ℚ))) [c2eml] =
      some [c10mlOut] := by
    rw [omapM, hshift, omapM]
    rfl
  rw [ml_merge_json_with_offset]
  rw [show sortByKey [(0, [c2eml])] = [(0, [c2eml])] from rfl]
  rw [omapM, show ((0, [c2eml]) : Nat × List Entry).2 = [c2eml] from rfl]
  rw [show (((0, [c2eml]) : Nat × List Entry).1 : ℚ) = ((0 : Nat) : ℚ) from rfl]
  rw [hF, omapM]
  rfl

theorem c10ad_merge_eval :
    ad_merge_json_with_offset [(0, [c2ead])] 300 = some [c10adOut] := by
  have hshift : ad_shiftEntry (((0 : Nat) : ℚ) * ((300 : Nat) : ℚ)) c2ead =
      some c10adOut := by
    have hg1 : dget c2ead kStart = some (Json.str "00:01.000".data) := rfl
    have hg2 : dget c2ead kEnd = some (Json.str "00:02.000".data) := rfl
    have hp1 : ad_timestamp_to_seconds ['0', '0', ':', '0', '1', '.', '0', '0', '0'] =
        some (((1000 : Nat) : ℚ) / 1000) := parse_ad_ts1
    have hp2 : ad_timestamp_to_seconds ['0', '0', ':', '0', '2', '.', '0', '0', '0'] =
        some (((2000 : Nat) : ℚ) / 1000) := parse_ad_ts2
    simp only [ad_shiftEntry, hg1, hg2, hp1, hp2]
    rfl
  have hF : omapM (ad_shiftEntry (((0 : Nat) : ℚ) * ((300 : Nat) : ℚ))) [c2ead] =
      some [c10adOut] := by
    rw [omapM, hshift, omapM]
    rfl
  rw [ad_merge_json_with_offset]
  rw [show sortByKey [(0, [c2ead])] = [(0, [c2ead])] from rfl]
  rw [omapM, show ((0, [c2ead]) : Nat × List Entry).2 = [c2ead] from rfl]
  rw [show (((0, [c2ead]) : Nat × List Entry).1 : ℚ) = ((0 : Nat) : ℚ) from rfl]
  rw [hF, omapM]
  rfl

/-- Witness for C10 on a one-chunk map for each variant. -/
theorem c10_merge_frame_witness :
    (ml_merge_json_with_offset [(0, [c2eml])] 300 = some [c10mlOut] ∧
      ad_merge_json_with_offset [(0, [c2ead])] 300 = some [c10adOut]) ∧
    (∃ p, p ∈ [((0 : Nat), [c2eml])] ∧ ∃ e ∈ p.2,
      ∀ k, k ≠ kStart → k ≠ kEnd → dget c10mlOut k = dget e k) ∧
    (∃ p, p ∈ [((0 : Nat), [c2ead])] ∧ ∃ e ∈ p.2,
      ∀ k, k ≠ kStart → k ≠ kEnd → dget c10adOut k = dget e k) :=
  ⟨⟨c10ml_merge_eval, c10ad_merge_eval⟩,
    (c10_merge_frame [(0, [c2eml])] [(0, [c2ead])] 300 300 [c10mlOut] [c10adOut]
      c10ml_merge_eval c10ad_merge_eval).1 c10mlOut (List.mem_singleton.2 rfl),
    (c10_merge_frame [(0, [c2eml])] [(0, [c2ead])] 300 300 [c10mlOut] [c10adOut]
      c10ml_merge_eval c10ad_merge_eval).2 c10adOut (List.mem_singleton.2 rfl)⟩

/-! ### Claim C6: retry controller -/

/-- One state of `retry_with_backoff`'s loop, from the given attempt
number on. The result records the final outcome (`none` for Python's
implicit `None` when the loop completes without returning, reachable only
with `max_retries = 0`), the number of calls to `func`, and the list of
sleep durations (delay plus drawn jitter). -/
def retryGo {E A : Type} (f : Nat → Except E A) (max_retries : Nat)
    (base_delay max_delay : ℚ) (jitter : Nat → ℚ) (attempt : Nat) :
    Option (Except E A) × Nat × List ℚ :=
  if h : attempt < max_retries then
    match f attempt with
    | Except.ok a => (some (Except.ok a), 1, [])
    | Except.error e =>
      if attempt = max_retries - 1 then (some (Except.error e), 1, [])
      else
        let delay := min max_delay (base_delay * 2 ^ attempt)
        let total_delay := delay + jitter attempt
        let r := retryGo f max_retries base_delay max_delay jitter (attempt + 1)
        (r.1, r.2.1 + 1, total_delay :: r.2.2)
  else (none, 0, [])
termination_by max_retries - attempt
decreasing_by omega

/-- `retry_with_backoff` of the transcription modules, with the call and the
sleeps made observable: `f n` is the outcome of the n-th call of `func`,
`jitter n` the value drawn by `random.uniform(0, delay * 0.1)` before the
n-th sleep. -/
def retry_with_backoff {E A : Type} (f : Nat → Except E A) (max_retries : Nat)
    (base_delay max_delay : ℚ) (jitter : Nat → ℚ) :
    Option (Except E A) × Nat × List ℚ :=
  retryGo f max_retries base_delay max_delay jitter 0

theorem retryGo_succeeds {E A : Type} (f : Nat → Except E A) (jitter : Nat → ℚ)
    (base maxd : ℚ) (k : Nat) (a : A) (d : Nat) :
    ∀ attempt, k - attempt = d → attempt ≤ k → k < 5 → f k = Except.ok a →
      (∀ i, attempt ≤ i → i < k → ∃ e, f i = Except.error e) →
      (retryGo f 5 base maxd jitter attempt).1 = some (Except.ok a) ∧
        (retryGo f 5 base maxd jitter attempt).2.1 = k - attempt + 1 := by
  induction d with
  | zero =>
    intro attempt hd hle hk5 hok _
    have hak : attempt = k := by omega
    subst hak
    rw [retryGo, dif_pos (show attempt < 5 by omega)]
    simp only [hok]
    refine ⟨by simp, ?_⟩
    show 1 = attempt - attempt + 1
    omega
  | succ d ih =>
    intro attempt hd hle hk5 hok hfail
    have hlt : attempt < k := by omega
    rcases hfail attempt (le_refl _) hlt with ⟨e, he⟩
    rw [retryGo, dif_pos (show attempt < 5 by omega)]
    simp only [he]
    rw [if_neg (show ¬(attempt = 5 - 1) by omega)]
    have hrec := ih (attempt + 1) (by omega) (by omega) hk5 hok
      (fun i hi1 hi2 => hfail i (by omega) hi2)
    refine ⟨hrec.1, ?_⟩
    show (retryGo f 5 base maxd jitter (attempt + 1)).2.1 + 1 = k - attempt + 1
    rw [hrec.2]
    omega

/-- C6: with maxAttempts 5, baseDelay 15 s, maxDelay 300 s and any jitter
draw within `[0, 0.1 · delay]`: if every call raises, `retry_with_backoff`
calls the operation exactly five times, sleeps after each failure but the
last for `min(maxDelay, baseDelay·2^attempt)` plus the drawn jitter, and
re-raises the final call's original exception unchanged; if some call
succeeds, its value is returned at once and the operation is not called
again. -/
theorem c6_retry_controller {E A : Type} (f : Nat → Except E A) (jitter : Nat → ℚ)
    (hj : ∀ i, 0 ≤ jitter i ∧ jitter i ≤ min 300 (15 * 2 ^ i) * (1 / 10)) :
    (∀ err : Nat → E, (∀ i, i < 5 → f i = Except.error (err i)) →
      retry_with_backoff f 5 15 300 jitter =
        (some (Except.error (err 4)), 5,
          [15 + jitter 0, 30 + jitter 1, 60 + jitter 2, 120 + jitter 3]) ∧
      (∀ k, k < 4 →
        min (300 : ℚ) (15 * 2 ^ k) ≤ min (300 : ℚ) (15 * 2 ^ k) + jitter k ∧
        min (300 : ℚ) (15 * 2 ^ k) + jitter k ≤
          min (300 : ℚ) (15 * 2 ^ k) * (11 / 10))) ∧
    (∀ (k : Nat) (a : A), k < 5 → f k = Except.ok a →
      (∀ i, i < k → ∃ e, f i = Except.error e) →
      (retry_with_backoff f 5 15 300 jitter).1 = some (Except.ok a) ∧
        (retry_with_backoff f 5 15 300 jitter).2.1 = k + 1) := by
  constructor
  · intro err herr
    constructor
    · have h0 := herr 0 (by omega)
      have h1 := herr 1 (by omega)
      have h2 := herr 2 (by omega)
      have h3 := herr 3 (by omega)
      have h4 := herr 4 (by omega)
      have s4 : retryGo f 5 15 300 jitter 4 = (some (Except.error (err 4)), 1, []) := by
        rw [retryGo, dif_pos (show (4 : Nat) < 5 by omega)]
        simp [h4]
      have s4' : retryGo f 5 15 300 jitter (3 + 1) = (some (Except.error (err 4)), 1, []) := s4
      have s3 : retryGo f 5 15 300 jitter 3 = (some (Except.error (err 4)), 2,
          [min 300 (15 * 2 ^ 3) + jitter 3]) := by
        rw [retryGo, dif_pos (show (3 : Nat) < 5 by omega)]
        simp [h3, s4']
      have s3' : retryGo f 5 15 300 jitter (2 + 1) = (some (Except.error (err 4)), 2,
          [min 300 (15 * 2 ^ 3) + jitter 3]) := s3
      have s2 : retryGo f 5 15 300 jitter 2 = (some (Except.error (err 4)), 3,
          [min 300 (15 * 2 ^ 2) + jitter 2, min 300 (15 * 2 ^ 3) + jitter 3]) := by
        rw [retryGo, dif_pos (show (2 : Nat) < 5 by omega)]
        simp [h2, s3']
      have s2' : retryGo f 5 15 300 jitter (1 + 1) = (some (Except.error (err 4)), 3,
          [min 300 (15 * 2 ^ 2) + jitter 2, min 300 (15 * 2 ^ 3) + jitter 3]) := s2
      have s1 : retryGo f 5 15 300 jitter 1 = (some (Except.error (err 4)), 4,
          [min 300 (15 * 2 ^ 1) + jitter 1, min 300 (15 * 2 ^ 2) + jitter 2,
            min 300 (15 * 2 ^ 3) + jitter 3]) := by
        rw [retryGo, dif_pos (show (1 : Nat) < 5 by omega)]
        simp [h1, s2']
      have s1' : retryGo f 5 15 300 jitter (0 + 1) = (some (Except.error (err 4)), 4,
          [min 300 (15 * 2 ^ 1) + jitter 1, min 300 (15 * 2 ^ 2) + jitter 2,
            min 300 (15 * 2 ^ 3) + jitter 3]) := s1
      rw [retry_with_backoff]
      rw [retryGo, dif_pos (show (0 : Nat) < 5 by omega)]
      simp [h0, s1']
      norm_num [min_def]
    · intro k hk
      have hjk := hj k
      refine ⟨by linarith [hjk.1], by linarith [hjk.2]⟩
  · intro k a hk hok hfail
    have h := retryGo_succeeds f jitter 15 300 k a k 0 (by omega) (by omega) hk hok
      (fun i _ hi2 => hfail i hi2)
    rw [retry_with_backoff]
    refine ⟨h.1, ?_⟩
    rw [h.2]
    omega

def c6fail : Nat → Except Nat Nat := fun i => Except.error i

def c6succ : Nat → Except Nat Nat := fun i => if i < 2 then Except.error i else Except.ok 99

def c6jit : Nat → ℚ := fun _ => 0

/-- Witness for C6: an always-failing operation (five calls, original final
error, four sleeps) and one succeeding on its third call (three calls). -/
theorem c6_retry_controller_witness :
    (∀ i, 0 ≤ c6jit i ∧ c6jit i ≤ min 300 (15 * 2 ^ i) * (1 / 10)) ∧
    ((∀ i, i < 5 → c6fail i = Except.error i) ∧
      retry_with_backoff c6fail 5 15 300 c6jit =
        (some (Except.error 4), 5,
          [15 + c6jit 0, 30 + c6jit 1, 60 + c6jit 2, 120 + c6jit 3])) ∧
    ((2 : Nat) < 5 ∧ c6succ 2 = Except.ok 99 ∧
      (∀ i, i < 2 → ∃ e, c6succ i = Except.error e) ∧
      (retry_with_backoff c6succ 5 15 300 c6jit).1 = some (Except.ok 99) ∧
      (retry_with_backoff c6succ 5 15 300 c6jit).2.1 = 3) := by
  have hj : ∀ i, 0 ≤ c6jit i ∧ c6jit i ≤ min 300 (15 * 2 ^ i) * (1 / 10) := by
    intro i
    have hmin : (0 : ℚ) ≤ min 300 (15 * 2 ^ i) := le_min (by norm_num) (by positivity)
    refine ⟨le_refl 0, ?_⟩
    show (0 : ℚ) ≤ min 300 (15 * 2 ^ i) * (1 / 10)
    linarith
  have herr : ∀ i, i < 5 → c6fail i = Except.error i := fun i _ => rfl
  have H1 := (c6_retry_controller c6fail c6jit hj).1 id herr
  have hfail2 : ∀ i, i < 2 → ∃ e, c6succ i = Except.error e := by
    intro i hi
    exact ⟨i, by simp [c6succ, hi]⟩
  have H2 := (c6_retry_controller c6succ c6jit hj).2 2 99 (by omega)
    (by simp [c6succ]) hfail2
  exact ⟨hj, ⟨herr, H1.1⟩, by omega, by simp [c6succ], hfail2, H2.1, H2.2⟩

/-! ### Claim C8: chunking arithmetic -/

/-- Python `range(start, stop, step)` for a positive step (the zero-step
case, where Python raises, yields the empty list). -/
def pyRange (start stop step : Nat) : List Nat :=
  if _ : step = 0 then []
  else if _ : start < stop then start :: pyRange (start + step) stop step
  else []
termination_by stop - start
decreasing_by omega

/-- `utils/audio_splitter.split_audio`: chunks as
(index, startMs, endMs) triples, `end_ms = min(start_ms + chunk_ms, duration)`,
indices counted up from 0. -/
def split_audio (audioDurationMs chunkDurationMs : Nat) : List (Nat × Nat × Nat) :=
  (pyRange 0 audioDurationMs chunkDurationMs).enum.map
    (fun p => (p.1, p.2, min (p.2 + chunkDurationMs) audioDurationMs))

/-- `multilingual_transcription.transcribe_audio` and `transcribe_chunks`,
abstracted over the per-chunk transcription outcome `f`: a short audio is
processed as the single chunk 0 with no merge and no offset; a long one is
split, each chunk transcribed, and the keyed results merged with offset
300 s. -/
def transcribe_audio_model (f : Nat → List Entry) (durationMs : Nat) :
    Option (List Entry) :=
  if ((durationMs : ℚ) / 1000) ≤ 300 then some (f 0)
  else ml_merge_json_with_offset
    ((split_audio durationMs 300000).map (fun c => (c.1, f c.1))) 300

theorem pyRange300k (d : Nat) : ∀ (n : Nat) (start : Nat), d - start = n →
    pyRange start d 300000 =
      (List.range ((d - start + 299999) / 300000)).map (fun j => start + j * 300000) := by
  intro n
  induction n using Nat.strong_induction_on with
  | _ n ih =>
    intro start hst
    by_cases hlt : start < d
    · rw [pyRange, dif_neg (by norm_num), dif_pos hlt]
      rw [ih (d - (start + 300000)) (by omega) (start + 300000) rfl]
      have hn1 : (d - start + 299999) / 300000 =
          (d - (start + 300000) + 299999) / 300000 + 1 := by omega
      rw [hn1, List.range_succ_eq_map, List.map_cons, List.map_map]
      simp only [List.cons.injEq]
      constructor
      · omega
      · apply List.map_congr_left
        intro j _
        simp only [Function.comp_apply]
        omega
    · rw [pyRange, dif_neg (by norm_num), dif_neg hlt]
      have h0 : (d - start + 299999) / 300000 = 0 := by omega
      rw [h0]
      rfl

theorem zip_self {α : Type} (l : List α) : l.zip l = l.map (fun a => (a, a)) := by
  induction l with
  | nil => rfl
  | cons a rest ih => simp [ih]

theorem enum_map_range (n : Nat) (g : Nat → Nat) :
    ((List.range n).map g).enum = (List.range n).map (fun i => (i, g i)) := by
  rw [List.enum_eq_zip_range]
  rw [List.length_map, List.length_range]
  rw [List.zip_map_right, zip_self, List.map_map]
  rfl

theorem split_audio_eq (d : Nat) : split_audio d 300000 =
    (List.range ((d + 299999) / 300000)).map
      (fun i => (i, i * 300000, min (i * 300000 + 300000) d)) := by
  rw [split_audio, pyRange300k d (d - 0) 0 rfl]
  have h1 : ((List.range ((d - 0 + 299999) / 300000)).map (fun j => 0 + j * 300000)) =
      (List.range ((d + 299999) / 300000)).map (fun j => j * 300000) := by
    simp
  rw [h1, enum_map_range, List.map_map]
  rfl

/-- C8: a short audio (duration at most the 300 s offset) is processed as a
single chunk with index 0 and no offset applied; otherwise the splitter
produces exactly ceil(durationMs / 300000) chunks indexed consecutively
from 0, where chunk i spans [i·300000, min((i+1)·300000, duration)) — so
every chunk except possibly the last lasts exactly 300000 ms and the last
covers the remainder. -/
theorem c8_chunking (f : Nat → List Entry) (durationMs : Nat) :
    (durationMs ≤ 300000 → transcribe_audio_model f durationMs = some (f 0)) ∧
    split_audio durationMs 300000 =
      (List.range ((durationMs + 299999) / 300000)).map
        (fun i => (i, i * 300000, min (i * 300000 + 300000) durationMs)) ∧
    (split_audio durationMs 300000).length = (durationMs + 299999) / 300000 ∧
    (∀ i, i + 1 < (durationMs + 299999) / 300000 →
      min (i * 300000 + 300000) durationMs - i * 300000 = 300000) ∧
    (0 < (durationMs + 299999) / 300000 →
      min ((((durationMs + 299999) / 300000) - 1) * 300000 + 300000) durationMs =
        durationMs) := by
  refine ⟨?_, split_audio_eq durationMs, ?_, ?_, ?_⟩
  · intro hd
    rw [transcribe_audio_model, if_pos]
    rw [div_le_iff₀ (by norm_num : (0 : ℚ) < 1000)]
    norm_num
    exact_mod_cast hd
  · rw [split_audio_eq]
    simp
  · intro i hi
    omega
  · intro hn
    omega

def c8f : Nat → List Entry := fun _ => []

/-- Witness for C8: a 200 s audio is a single chunk; a 620 s audio
(620000 ms) splits into three chunks, the last covering the remainder. -/
theorem c8_chunking_witness :
    ((200000 : Nat) ≤ 300000 ∧ transcribe_audio_model c8f 200000 = some (c8f 0)) ∧
    ((620000 + 299999) / 300000 = 3 ∧
      (split_audio 620000 300000).length = (620000 + 299999) / 300000 ∧
      (0 < (620000 + 299999) / 300000 →
        min ((((620000 + 299999) / 300000) - 1) * 300000 + 300000) 620000 = 620000)) :=
  ⟨⟨by norm_num, (c8_chunking c8f 200000).1 (by norm_num)⟩,
    by norm_num,
    (c8_chunking c8f 620000).2.2.1,
    (c8_chunking c8f 620000).2.2.2.2⟩


/-! ### IEEE-754 binary64 model

The timestamp arithmetic of the source runs on Python floats: IEEE-754
binary64 values with round-to-nearest, ties-to-even. `fp` rounds an exact
rational to the nearest binary64 value (normal range; every value these
codecs compute lies far inside it). `fadd`, `fmul` and `fdiv` are the
exactly rounded float operations. Python's `x % y` needs no rounding step
for nonnegative operands (the remainder of two binary64 values is itself
a binary64 value, so `pyMod` already computes it exactly), and `x // y`
rounds the exact floor quotient, as CPython's float floor division
computes it. An int operand of a mixed int/float operation is converted
to binary64 first (`fp` again); the int literals of the source (1, 60,
1000, 3600) are exactly representable, so they appear unwrapped. -/

/-- Round an exact rational to the nearest IEEE-754 binary64 value
(round to nearest, ties to even; exponent range unchecked: all values in
scope are normal and far from overflow). -/
def fp (q : ℚ) : ℚ :=
  if q = 0 then 0
  else if q < 0 then
    -((rhe (-q * 2 ^ (52 - Int.log 2 (-q))) : ℚ) * 2 ^ (Int.log 2 (-q) - 52))
  else (rhe (q * 2 ^ (52 - Int.log 2 q)) : ℚ) * 2 ^ (Int.log 2 q - 52)

/-- Binary64 addition: round the exact sum. -/
def fadd (x y : ℚ) : ℚ := fp (x + y)

/-- Binary64 multiplication: round the exact product. -/
def fmul (x y : ℚ) : ℚ := fp (x * y)

/-- Binary64 true division: round the exact quotient (junk value 0 where
Python raises `ZeroDivisionError`). -/
def fdiv (x y : ℚ) : ℚ := if y = 0 then 0 else fp (x / y)

/-- Binary64 `x // y` for nonnegative operands: the exact floor quotient,
an integer, rounded to binary64. -/
def ffloordiv (x y : ℚ) : ℚ := fp (pyFloorDiv x y)

theorem fp_zero : fp 0 = 0 := by simp [fp]

theorem rhe_eq_of {x : ℚ} {n : ℤ} (h1 : (n : ℚ) - 1 / 2 < x)
    (h2 : x < (n : ℚ) + 1 / 2) : rhe x = n := by
  simp only [rhe]
  rcases le_or_lt (n : ℚ) x with h | h
  · have hf : ⌊x⌋ = n := Int.floor_eq_iff.2 ⟨h, by linarith⟩
    rw [hf, if_pos (by linarith)]
  · have hf : ⌊x⌋ = n - 1 :=
      Int.floor_eq_iff.2 ⟨by push_cast; linarith, by push_cast; linarith⟩
    rw [hf, if_neg (by push_cast; linarith), if_pos (by push_cast; linarith)]
    omega

theorem int_log2_eq {q : ℚ} {e : ℤ} (h1 : (2 : ℚ) ^ e ≤ q)
    (h2 : q < (2 : ℚ) ^ (e + 1)) : Int.log 2 q = e := by
  have hq : 0 < q := lt_of_lt_of_le (by positivity) h1
  have hl := Int.zpow_log_le_self (b := 2) (r := q) (by norm_num) hq
  have hu := Int.lt_zpow_succ_log_self (b := 2) (r := q) (by norm_num)
  push_cast at hl hu
  by_contra hne
  rcases lt_or_gt_of_ne hne with hlt | hgt
  · have hle : ((2 : ℚ) ^ (Int.log 2 q + 1)) ≤ 2 ^ e :=
      zpow_le_zpow_right₀ (by norm_num) (by omega)
    linarith
  · have hle : ((2 : ℚ) ^ (e + 1)) ≤ 2 ^ (Int.log 2 q) :=
      zpow_le_zpow_right₀ (by norm_num) (by omega)
    linarith

/-- Characterize `fp` at a positive value strictly inside a rounding
interval: the result is the binary64 value with significand `m` and
exponent `e` (the binade hypothesis pins the scaling exponent; the strict
bounds avoid ties, which none of the values in scope hit). -/
theorem fp_eq_of (q : ℚ) (m : ℕ) (e : ℤ) (h1 : 2 ^ 52 ≤ m) (h2 : m < 2 ^ 53)
    (hbin : (2 : ℚ) ^ (e + 52) ≤ q)
    (hlo : ((m : ℚ) - 1 / 2) * (2 : ℚ) ^ e < q)
    (hhi : q < ((m : ℚ) + 1 / 2) * (2 : ℚ) ^ e) :
    fp q = (m : ℚ) * (2 : ℚ) ^ e := by
  have h2e : (0 : ℚ) < (2 : ℚ) ^ e := zpow_pos (by norm_num) e
  have hq0 : (0 : ℚ) < q := lt_of_lt_of_le (zpow_pos (by norm_num) _) hbin
  have hm53 : (m : ℚ) + 1 / 2 ≤ (2 : ℚ) ^ (53 : ℤ) := by
    have hn : (m : ℚ) ≤ ((2 ^ 53 - 1 : ℕ) : ℚ) := by
      exact_mod_cast Nat.le_pred_of_lt h2
    have hc : ((2 ^ 53 - 1 : ℕ) : ℚ) = (2 : ℚ) ^ (53 : ℤ) - 1 := by norm_num
    rw [hc] at hn
    linarith
  have hlog : Int.log 2 q = e + 52 := by
    apply int_log2_eq hbin
    have hP : (2 : ℚ) ^ (e + 52 + 1) = (2 : ℚ) ^ (53 : ℤ) * (2 : ℚ) ^ e := by
      rw [← zpow_add₀ (by norm_num : (2 : ℚ) ≠ 0)]
      congr 1
      ring
    calc q < ((m : ℚ) + 1 / 2) * (2 : ℚ) ^ e := hhi
      _ ≤ (2 : ℚ) ^ (53 : ℤ) * (2 : ℚ) ^ e := by
          exact mul_le_mul_of_nonneg_right hm53 (le_of_lt h2e)
      _ = (2 : ℚ) ^ (e + 52 + 1) := hP.symm
  have hz : (2 : ℚ) ^ e * (2 : ℚ) ^ (-e) = 1 := by
    rw [← zpow_add₀ (by norm_num : (2 : ℚ) ≠ 0)]
    simp
  have h2e' : (0 : ℚ) < (2 : ℚ) ^ (-e) := zpow_pos (by norm_num) _
  simp only [fp]
  rw [if_neg (ne_of_gt hq0), if_neg (not_lt.2 (le_of_lt hq0)), hlog]
  have hE : (52 : ℤ) - (e + 52) = -e := by ring
  have hE2 : (e + 52 - 52 : ℤ) = e := by ring
  rw [hE, hE2]
  have hrhe : rhe (q * (2 : ℚ) ^ (-e)) = (m : ℤ) := by
    apply rhe_eq_of
    · push_cast
      have h := mul_lt_mul_of_pos_right hlo h2e'
      rw [mul_assoc, hz, mul_one] at h
      linarith
    · push_cast
      have h := mul_lt_mul_of_pos_right hhi h2e'
      rw [mul_assoc, hz, mul_one] at h
      linarith
  rw [hrhe]
  push_cast
  ring

/-- `fp` is the identity on binary64-representable values. -/
theorem fp_exact (m : ℕ) (e : ℤ) (h1 : 2 ^ 52 ≤ m) (h2 : m < 2 ^ 53) :
    fp ((m : ℚ) * (2 : ℚ) ^ e) = (m : ℚ) * (2 : ℚ) ^ e := by
  have h2e : (0 : ℚ) < (2 : ℚ) ^ e := zpow_pos (by norm_num) e
  have h1q : (2 : ℚ) ^ (52 : ℤ) ≤ (m : ℚ) := by
    have : ((2 ^ 52 : ℕ) : ℚ) ≤ (m : ℚ) := by exact_mod_cast h1
    calc (2 : ℚ) ^ (52 : ℤ) = ((2 ^ 52 : ℕ) : ℚ) := by norm_num
      _ ≤ (m : ℚ) := this
  apply fp_eq_of _ m e h1 h2
  · rw [zpow_add₀ (by norm_num : (2 : ℚ) ≠ 0)]
    calc (2 : ℚ) ^ e * (2 : ℚ) ^ (52 : ℤ)
        = (2 : ℚ) ^ (52 : ℤ) * (2 : ℚ) ^ e := mul_comm _ _
      _ ≤ (m : ℚ) * (2 : ℚ) ^ e := mul_le_mul_of_nonneg_right h1q (le_of_lt h2e)
  · have hmpos : (0 : ℚ) < (m : ℚ) := lt_of_lt_of_le (by positivity) h1q
    have : ((m : ℚ) - 1 / 2) < (m : ℚ) := by linarith
    exact mul_lt_mul_of_pos_right this h2e
  · have : (m : ℚ) < (m : ℚ) + 1 / 2 := by linarith
    exact mul_lt_mul_of_pos_right this h2e

/-- `multilingual_transcription.timestamp_to_seconds` over binary64
arithmetic (the same definition appears in `bengali_transcription.py`).
The all-int subexpressions are exact Python ints; the int operand of the
final `+` and of `/ 1000.0` converts to binary64, and `float(...)` reads
the decimal literal to the nearest binary64 value. -/
def ml_timestamp_to_seconds_fp (timestamp : Str) : Option ℚ :=
  match splitOnChar ':' timestamp with
  | [hours, minutes, seconds, milliseconds] => do
    let h ← parseNat? hours
    let m ← parseNat? minutes
    let s ← parseNat? seconds
    let ms ← parseNat? milliseconds
    pure (fadd (fp ((h * 3600 + m * 60 + s : Nat) : ℚ)) (fdiv (fp (ms : ℚ)) 1000))
  | [p0, p1, p2] =>
    if '.' ∈ p2 then do
      let h ← parseNat? p0
      let m ← parseNat? p1
      let s ← parseDec? p2
      pure (fadd (fp ((h * 3600 + m * 60 : Nat) : ℚ)) (fp s))
    else do
      let h ← parseNat? p0
      let m ← parseNat? p1
      let s ← parseDec? p2
      pure (fadd (fp ((h * 3600 + m * 60 : Nat) : ℚ)) (fp s))
  | [minutes, seconds] => do
    let m ← parseNat? minutes
    let s ← parseDec? seconds
    pure (fadd (fp ((m * 60 : Nat) : ℚ)) (fp s))
  | _ => none

/-- `multilingual_transcription.seconds_to_timestamp` over binary64
arithmetic: the `%` steps are exact, `(seconds % 1) * 1000` rounds, and
`int(...)` truncates toward zero — so a product rounded to just below an
exact millisecond count loses a full millisecond. -/
def ml_seconds_to_timestamp_fp (seconds : ℚ) : Str :=
  let hours := pyInt (ffloordiv seconds 3600)
  let minutes := pyInt (ffloordiv (pyMod seconds 3600) 60)
  let secs := pyInt (pyMod seconds 60)
  let milliseconds := pyInt (fmul (pyMod seconds 1) 1000)
  pad2Int hours ++ ':' :: pad2Int minutes ++ ':' :: pad2Int secs ++
    ':' :: pad3Int milliseconds

/-- The per-entry body of `multilingual_transcription.merge_json_with_offset`
over binary64 timestamp arithmetic: the exact int offset converts to
binary64 and the `+` rounds. -/
def ml_shiftEntry_fp (offset_seconds : ℚ) (entry : Entry) : Option Entry :=
  match dget entry kStart, dget entry kEnd with
  | some (Json.str s), some (Json.str e) => do
    let sv ← ml_timestamp_to_seconds_fp s
    let ev ← ml_timestamp_to_seconds_fp e
    pure (dset (dset entry kStart
      (Json.str (ml_seconds_to_timestamp_fp (fadd sv (fp offset_seconds))))) kEnd
      (Json.str (ml_seconds_to_timestamp_fp (fadd ev (fp offset_seconds)))))
  | _, _ => none

/-- `multilingual_transcription.merge_json_with_offset` over binary64
timestamp arithmetic (`offset_seconds = i * time_offset` itself is exact
Python int arithmetic). -/
def ml_merge_json_with_offset_fp (data : List (Nat × List Entry)) (time_offset : Nat) :
    Option (List Entry) :=
  (omapM (fun (p : Nat × List Entry) =>
    omapM (ml_shiftEntry_fp ((p.1 * time_offset : Nat) : ℚ)) p.2) (sortByKey data)).map
    List.flatten

theorem ml_parse_four_fp (h m s ms : Nat) :
    ml_timestamp_to_seconds_fp
        (pad2 h ++ ':' :: (pad2 m ++ ':' :: (pad2 s ++ ':' :: pad3 ms))) =
      some (fadd (fp ((h * 3600 + m * 60 + s : Nat) : ℚ)) (fdiv (fp (ms : ℚ)) 1000)) := by
  have hsplit : splitOnChar ':' (pad2 h ++ ':' :: (pad2 m ++ ':' :: (pad2 s ++ ':' :: pad3 ms)))
      = [pad2 h, pad2 m, pad2 s, pad3 ms] := by
    rw [splitOnChar_append_sep (pad2_no_colon h), splitOnChar_append_sep (pad2_no_colon m),
      splitOnChar_append_sep (pad2_no_colon s), splitOnChar_no_sep (pad3_no_colon ms)]
  rw [ml_timestamp_to_seconds_fp, hsplit]
  simp [parseNat?_pad2, parseNat?_pad3]

/-- The binary64 value the phrase-level parser produces for
`00:00:08:200` (the binary64 value nearest 8.2 s). -/
def d82 : ℚ := 4616189618054758 * (2 : ℚ) ^ (-49 : ℤ)

/-- The binary64 value the phrase-level parser produces for
`00:00:08:199` (the binary64 value nearest 8.199 s). -/
def d8199 : ℚ := 4615626668101337 * (2 : ℚ) ^ (-49 : ℤ)

theorem fp_eight : fp (8 : ℚ) = 8 := by
  have h := fp_exact 4503599627370496 (-49) (by norm_num) (by norm_num)
  norm_num at h
  exact h

theorem fp_of_200 : fp (200 : ℚ) = 200 := by
  have h := fp_exact 7036874417766400 (-45) (by norm_num) (by norm_num)
  norm_num at h
  exact h

theorem fp_of_199 : fp (199 : ℚ) = 199 := by
  have h := fp_exact 7001690045677568 (-45) (by norm_num) (by norm_num)
  norm_num at h
  exact h

theorem fdiv_200_1000 : fdiv (200 : ℚ) 1000 = 7205759403792794 * (2 : ℚ) ^ (-55 : ℤ) := by
  rw [fdiv, if_neg (by norm_num : (1000 : ℚ) ≠ 0)]
  have h := fp_eq_of ((200 : ℚ) / 1000) 7205759403792794 (-55) (by norm_num) (by norm_num)
    (by norm_num) (by norm_num) (by norm_num)
  norm_num at h ⊢
  exact h

theorem fdiv_199_1000 : fdiv (199 : ℚ) 1000 = 7169730606773830 * (2 : ℚ) ^ (-55 : ℤ) := by
  rw [fdiv, if_neg (by norm_num : (1000 : ℚ) ≠ 0)]
  have h := fp_eq_of ((199 : ℚ) / 1000) 7169730606773830 (-55) (by norm_num) (by norm_num)
    (by norm_num) (by norm_num) (by norm_num)
  norm_num at h ⊢
  exact h

theorem fadd_8_qms200 : fadd 8 (7205759403792794 * (2 : ℚ) ^ (-55 : ℤ)) = d82 := by
  rw [fadd, d82]
  have h := fp_eq_of (8 + 7205759403792794 * (2 : ℚ) ^ (-55 : ℤ)) 4616189618054758 (-49)
    (by norm_num) (by norm_num) (by norm_num) (by norm_num) (by norm_num)
  norm_num at h ⊢
  exact h

theorem fadd_8_qms199 : fadd 8 (7169730606773830 * (2 : ℚ) ^ (-55 : ℤ)) = d8199 := by
  rw [fadd, d8199]
  have h := fp_eq_of (8 + 7169730606773830 * (2 : ℚ) ^ (-55 : ℤ)) 4615626668101337 (-49)
    (by norm_num) (by norm_num) (by norm_num) (by norm_num) (by norm_num)
  norm_num at h ⊢
  exact h

/-- The binary64 value of the exact rational 8.2 is `d82`. -/
theorem fp_82 : fp ((8200 : ℚ) / 1000) = d82 := by
  rw [d82]
  have h := fp_eq_of ((8200 : ℚ) / 1000) 4616189618054758 (-49)
    (by norm_num) (by norm_num) (by norm_num) (by norm_num) (by norm_num)
  norm_num at h ⊢
  exact h

theorem fp_parse_8200 : ml_timestamp_to_seconds_fp ("00:00:08:200".data) = some d82 := by
  rw [show ("00:00:08:200".data : Str) =
      pad2 0 ++ ':' :: (pad2 0 ++ ':' :: (pad2 8 ++ ':' :: pad3 200)) by
    simp [pad2, pad3, natToChars, digitToChar]]
  rw [ml_parse_four_fp]
  norm_num
  rw [fp_eight, fp_of_200, fdiv_200_1000, fadd_8_qms200]

theorem fp_parse_8199 : ml_timestamp_to_seconds_fp ("00:00:08:199".data) = some d8199 := by
  rw [show ("00:00:08:199".data : Str) =
      pad2 0 ++ ':' :: (pad2 0 ++ ':' :: (pad2 8 ++ ':' :: pad3 199)) by
    simp [pad2, pad3, natToChars, digitToChar]]
  rw [ml_parse_four_fp]
  norm_num
  rw [fp_eight, fp_of_199, fdiv_199_1000, fadd_8_qms199]

theorem floor_d82_3600 : ⌊d82 / 3600⌋ = 0 := by
  rw [Int.floor_eq_iff]
  norm_num [d82]

theorem floor_d82_60 : ⌊d82 / 60⌋ = 0 := by
  rw [Int.floor_eq_iff]
  norm_num [d82]

theorem floor_d82 : ⌊d82⌋ = 8 := by
  rw [Int.floor_eq_iff]
  norm_num [d82]

theorem fp_format_d82 : ml_seconds_to_timestamp_fp d82 = "00:00:08:199".data := by
  have hh : pyInt (ffloordiv d82 3600) = 0 := by
    rw [ffloordiv, pyFloorDiv, if_neg (by norm_num : (3600 : ℚ) ≠ 0), floor_d82_3600]
    rw [show (((0 : ℤ) : ℚ)) = (0 : ℚ) by norm_num, fp_zero]
    rw [show (0 : ℚ) = ((0 : ℕ) : ℚ) by norm_num, pyInt_natCast]
    norm_num
  have hmod3600 : pyMod d82 3600 = d82 := by
    rw [pyMod, if_neg (by norm_num : (3600 : ℚ) ≠ 0), floor_d82_3600]
    norm_num
  have hmin : pyInt (ffloordiv (pyMod d82 3600) 60) = 0 := by
    rw [hmod3600, ffloordiv, pyFloorDiv, if_neg (by norm_num : (60 : ℚ) ≠ 0), floor_d82_60]
    rw [show (((0 : ℤ) : ℚ)) = (0 : ℚ) by norm_num, fp_zero]
    rw [show (0 : ℚ) = ((0 : ℕ) : ℚ) by norm_num, pyInt_natCast]
    norm_num
  have hmod60 : pyMod d82 60 = d82 := by
    rw [pyMod, if_neg (by norm_num : (60 : ℚ) ≠ 0), floor_d82_60]
    norm_num
  have hsec : pyInt (pyMod d82 60) = 8 := by
    rw [hmod60, pyInt_nonneg_floor (by norm_num [d82] : (0 : ℚ) ≤ d82), floor_d82]
  have hmod1 : pyMod d82 1 = d82 - 8 := by
    rw [pyMod, if_neg (by norm_num : (1 : ℚ) ≠ 0), div_one, floor_d82]
    norm_num
  have hprod : (d82 - 8) * 1000 = 7036874417766375 * (2 : ℚ) ^ (-45 : ℤ) := by
    norm_num [d82]
  have hfmul : fmul (pyMod d82 1) 1000 = 7036874417766375 * (2 : ℚ) ^ (-45 : ℤ) := by
    rw [fmul, hmod1, hprod]
    have h := fp_exact 7036874417766375 (-45) (by norm_num) (by norm_num)
    norm_num at h ⊢
    exact h
  have hmsfloor : ⌊(7036874417766375 : ℚ) * (2 : ℚ) ^ (-45 : ℤ)⌋ = 199 := by
    rw [Int.floor_eq_iff]
    norm_num
  have hms : pyInt (fmul (pyMod d82 1) 1000) = 199 := by
    rw [hfmul, pyInt_nonneg_floor (by norm_num : (0 : ℚ) ≤ 7036874417766375 * (2 : ℚ) ^ (-45 : ℤ)),
      hmsfloor]
  rw [ml_seconds_to_timestamp_fp]
  rw [hh, hmin, hsec, hms]
  rw [show (0 : ℤ) = ((0 : ℕ) : ℤ) by norm_num, pad2Int_natCast]
  rw [show (8 : ℤ) = ((8 : ℕ) : ℤ) by norm_num, pad2Int_natCast]
  rw [show (199 : ℤ) = ((199 : ℕ) : ℤ) by norm_num, pad3Int_natCast]
  simp [pad2, pad3, natToChars, digitToChar]

/-- C1, counterexample: over the binary64 float arithmetic the source
actually computes with, the phrase-level codec does not round-trip
x = 8.2 s (an exact multiple of 0.001 in [0, 86400)): the value the
program holds for 8.2 is the binary64 value `d82`; parsing `00:00:08:200`
yields exactly `d82`, but formatting `d82` yields `00:00:08:199`
(`int((seconds % 1) * 1000)` truncates the product, which rounds to just
below 200), and parsing that back gives a different value, 8.199 s up to
rounding. -/
theorem c1_counterexample_ms_truncation :
    fp ((8200 : ℚ) / 1000) = d82 ∧
    ml_timestamp_to_seconds_fp ("00:00:08:200".data) = some d82 ∧
    ml_seconds_to_timestamp_fp d82 = "00:00:08:199".data ∧
    ml_timestamp_to_seconds_fp ("00:00:08:199".data) = some d8199 ∧
    d8199 ≠ d82 :=
  ⟨fp_82, fp_parse_8200, fp_format_d82, fp_parse_8199, by norm_num [d82, d8199]⟩

/-- A phrase-level entry whose timestamps are `00:00:08:200`. -/
def mlFpEntry : Entry :=
  [(kStart, Json.str "00:00:08:200".data), (kEnd, Json.str "00:00:08:200".data),
    (kText, Json.str "hi".data)]

/-- What the binary64 merger makes of `mlFpEntry` at chunk index 0: both
timestamps drop to `00:00:08:199` although the offset is zero. -/
def mlFpEntryOut : Entry :=
  [(kStart, Json.str "00:00:08:199".data), (kEnd, Json.str "00:00:08:199".data),
    (kText, Json.str "hi".data)]

theorem fadd_d82_zero : fadd d82 (fp ((0 * 300 : Nat) : ℚ)) = d82 := by
  rw [show ((0 * 300 : Nat) : ℚ) = 0 by norm_num, fp_zero, fadd, add_zero, d82]
  have h := fp_exact 4616189618054758 (-49) (by norm_num) (by norm_num)
  norm_num at h ⊢
  exact h

theorem fp_shift_eval :
    ml_shiftEntry_fp ((0 * 300 : Nat) : ℚ) mlFpEntry = some mlFpEntryOut := by
  have hg1 : dget mlFpEntry kStart = some (Json.str "00:00:08:200".data) := rfl
  have hg2 : dget mlFpEntry kEnd = some (Json.str "00:00:08:200".data) := rfl
  have hp : ml_timestamp_to_seconds_fp
      ['0', '0', ':', '0', '0', ':', '0', '8', ':', '2', '0', '0'] = some d82 :=
    fp_parse_8200
  simp only [ml_shiftEntry_fp, hg1, hg2, hp, Option.bind_eq_bind, Option.some_bind,
    fadd_d82_zero, fp_format_d82]
  rfl

theorem fp_merge_eval :
    ml_merge_json_with_offset_fp [(0, [mlFpEntry])] 300 = some [mlFpEntryOut] := by
  have hF : omapM (ml_shiftEntry_fp ((0 * 300 : Nat) : ℚ)) [mlFpEntry] =
      some [mlFpEntryOut] := by
    rw [omapM, fp_shift_eval, omapM]
    rfl
  rw [ml_merge_json_with_offset_fp]
  rw [show sortByKey [(0, [mlFpEntry])] = [(0, [mlFpEntry])] from rfl]
  rw [omapM, show ((0, [mlFpEntry]) : Nat × List Entry).2 = [mlFpEntry] from rfl]
  rw [show (((0, [mlFpEntry]) : Nat × List Entry).1 * 300 : Nat) = (0 * 300 : Nat) from rfl]
  rw [hF, omapM]
  rfl

/-- C2, counterexample: over the binary64 arithmetic the source actually
computes with, the phrase-level merger does not shift entries by exactly
`i * t` seconds: at chunk index 0 the offset is 0 * 300 = 0 s, yet the
merged entry's timestamps change from `00:00:08:200` to `00:00:08:199`
(the parse → add offset → format cycle loses a millisecond to
`int((seconds % 1) * 1000)`), and the two timestamp strings denote
different parsed values. -/
theorem c2_counterexample_inexact_shift :
    ml_merge_json_with_offset_fp [(0, [mlFpEntry])] 300 = some [mlFpEntryOut] ∧
    dget mlFpEntryOut kStart ≠ dget mlFpEntry kStart ∧
    ml_timestamp_to_seconds_fp ("00:00:08:199".data) ≠
      ml_timestamp_to_seconds_fp ("00:00:08:200".data) :=
  ⟨fp_merge_eval, by decide, by
    rw [fp_parse_8199, fp_parse_8200]
    intro hcontra
    exact (by norm_num [d82, d8199] : d8199 ≠ d82) (Option.some.inj hcontra)⟩
